import Mathlib

/-!
Verification development for the BIP32 hierarchical-deterministic key module
of `tcx-primitive` (`src/bip32.rs`) together with the error enum of
`tcx-chain` (`src/lib.rs`).

Bytes are modelled as `Nat` (values < 256), byte strings as `List Nat`,
machine integers as `Nat` with explicit `% 2 ^ w` where overflow matters.
The two cryptographic hash primitives used by the derivation engine
(HMAC-SHA512 and HASH160, both supplied by the `bitcoin` backend crate and
treated as opaque by `bip32.rs`) are parameters of the model, bundled in
`HashPrims`; the double-SHA256 checksum of the base58check codec is
implemented concretely below.
-/

/-- Big-endian bytes of `n`, fixed width `w` (the written value is `n % 256 ^ w`,
matching a `w`-byte machine-integer store). -/
def beBytes : Nat → Nat → List Nat
  | 0, _ => []
  | w + 1, n => beBytes w (n / 256) ++ [n % 256]

/-- Value of a big-endian digit string in radix `r` (radix-`r` left fold). -/
def radixNat (r : Nat) (l : List Nat) : Nat := l.foldl (fun a b => r * a + b) 0

/-- Value of a big-endian byte string, as read by `BigEndian::read_u32` etc. -/
def beNat (l : List Nat) : Nat := radixNat 256 l

/-- Big-endian digits of `n` in radix `r`, no leading zero digit; fuel-based
so that it is structurally recursive (fuel `n` suffices). -/
def natDigitsBEAux (r : Nat) : Nat → Nat → List Nat
  | 0, _ => []
  | f + 1, n => if n = 0 then [] else natDigitsBEAux r f (n / r) ++ [n % r]

/-- Big-endian digits of `n` in radix `r` (empty for `n = 0`). -/
def natDigitsBE (r n : Nat) : List Nat := natDigitsBEAux r n n

/-- Rust range indexing `&data[a..b]` on a byte vector. -/
def sliceBytes (a b : Nat) (l : List Nat) : List Nat := (l.drop a).take (b - a)

/-- Truncation to a 32-bit word. -/
def w32 (n : Nat) : Nat := n % 4294967296

/-- Rotation of a 32-bit word to the right by `b` positions. -/
def rotr32 (b n : Nat) : Nat := w32 ((n >>> b) ||| (n <<< (32 - b)))

/-- SHA-256 choice function; bitwise not is xor with the 32-bit mask. -/
def sha2Ch (x y z : Nat) : Nat := (x &&& y) ^^^ ((x ^^^ 4294967295) &&& z)

/-- SHA-256 majority function. -/
def sha2Maj (x y z : Nat) : Nat := (x &&& y) ^^^ (x &&& z) ^^^ (y &&& z)

/-- SHA-256 big sigma 0. -/
def sha2S0 (x : Nat) : Nat := rotr32 2 x ^^^ rotr32 13 x ^^^ rotr32 22 x

/-- SHA-256 big sigma 1. -/
def sha2S1 (x : Nat) : Nat := rotr32 6 x ^^^ rotr32 11 x ^^^ rotr32 25 x

/-- SHA-256 small sigma 0. -/
def sha2s0 (x : Nat) : Nat := rotr32 7 x ^^^ rotr32 18 x ^^^ (x >>> 3)

/-- SHA-256 small sigma 1. -/
def sha2s1 (x : Nat) : Nat := rotr32 17 x ^^^ rotr32 19 x ^^^ (x >>> 10)

/-- SHA-256 round constants. -/
def sha256K : List Nat :=
  [1116352408, 1899447441, 3049323471, 3921009573, 961987163,
   1508970993, 2453635748, 2870763221, 3624381080, 310598401,
   607225278, 1426881987, 1925078388, 2162078206, 2614888103,
   3248222580, 3835390401, 4022224774, 264347078, 604807628,
   770255983, 1249150122, 1555081692, 1996064986, 2554220882,
   2821834349, 2952996808, 3210313671, 3336571891, 3584528711,
   113926993, 338241895, 666307205, 773529912, 1294757372,
   1396182291, 1695183700, 1986661051, 2177026350, 2456956037,
   2730485921, 2820302411, 3259730800, 3345764771, 3516065817,
   3600352804, 4094571909, 275423344, 430227734, 506948616,
   659060556, 883997877, 958139571, 1322822218, 1537002063,
   1747873779, 1955562222, 2024104815, 2227730452, 2361852424,
   2428436474, 2756734187, 3204031479, 3329325298]

/-- SHA-256 initial state. -/
def sha256Init : List Nat :=
  [1779033703, 3144134277, 1013904242,
   2773480762, 1359893119, 2600822924,
   528734635, 1541459225]

/-- Message-schedule extension of a 16-word block to 64 words. -/
def sha256Schedule (block : List Nat) : List Nat :=
  (List.range 64).foldl
    (fun acc i =>
      if i < 16 then acc ++ [block.getD i 0]
      else acc ++ [w32 (sha2s1 (acc.getD (i - 2) 0) + acc.getD (i - 7) 0 +
                        sha2s0 (acc.getD (i - 15) 0) + acc.getD (i - 16) 0)])
    []

/-- One SHA-256 compression round applied to the 8-word working state. -/
def sha256Round (ws : List Nat) (st : List Nat) (i : Nat) : List Nat :=
  let a := st.getD 0 0
  let b := st.getD 1 0
  let c := st.getD 2 0
  let d := st.getD 3 0
  let e := st.getD 4 0
  let f := st.getD 5 0
  let g := st.getD 6 0
  let h := st.getD 7 0
  let t1 := w32 (h + sha2S1 e + sha2Ch e f g + sha256K.getD i 0 + ws.getD i 0)
  let t2 := w32 (sha2S0 a + sha2Maj a b c)
  [w32 (t1 + t2), a, b, c, w32 (d + t1), e, f, g]

/-- SHA-256 compression of one 16-word block into the chaining state. -/
def sha256Compress (hs : List Nat) (block : List Nat) : List Nat :=
  let ws := sha256Schedule block
  let st := (List.range 64).foldl (sha256Round ws) hs
  List.zipWith (fun x y => w32 (x + y)) hs st

/-- SHA-256 padding: `0x80`, zeros to 56 mod 64, then the 64-bit bit length. -/
def sha256Pad (msg : List Nat) : List Nat :=
  let l := msg.length
  let zeros := (119 - l % 64) % 64
  msg ++ [0x80] ++ List.replicate zeros 0 ++ beBytes 8 (8 * l)

/-- Split a padded message into 64-byte blocks (fuel-based). -/
def toBlocks : Nat → List Nat → List (List Nat)
  | 0, _ => []
  | _, [] => []
  | f + 1, l => l.take 64 :: toBlocks f (l.drop 64)

/-- Group a 64-byte block into 16 big-endian 32-bit words (fuel-based). -/
def toWords : Nat → List Nat → List Nat
  | 0, _ => []
  | _, [] => []
  | f + 1, l => beNat (l.take 4) :: toWords f (l.drop 4)

/-- Full SHA-256 of a byte string. -/
def sha256 (msg : List Nat) : List Nat :=
  let padded := sha256Pad msg
  let blocks := (toBlocks padded.length padded).map (toWords 16)
  (blocks.foldl sha256Compress sha256Init).flatMap (beBytes 4)

/-- Double SHA-256, the hash used by the base58check checksum
(`bitcoin::hashes::sha256d`). -/
def sha256d (msg : List Nat) : List Nat := sha256 (sha256 msg)

/-- Value of a little-endian byte string, as read by `LittleEndian::read_u32`
in the checksum comparison of `from_check`. -/
def leNat (l : List Nat) : Nat := l.foldr (fun b a => 256 * a + b) 0

/-- Alphabet of base58. -/
def b58Chars : List Char :=
  "123456789ABCDEFGHJKLMNPQRSTUVWXYZabcdefghijkmnopqrstuvwxyz".toList

/-- Digit-to-character table of base58. -/
def b58Digit (d : Nat) : Char := b58Chars.getD d '?'

/-- Character-to-digit table of base58; `none` on a character outside the
alphabet. -/
def b58Val (c : Char) : Option Nat := b58Chars.indexOf? c

/-- Errors of `bitcoin::util::base58::Error`, restricted to the variants this
module can produce; `other` carries the message of a wrapped secp256k1 error
(`base58::Error::Other(e.to_string())`). -/
inductive B58Error where
  | badByte (b : Nat)
  | badChecksum (expected actual : Nat)
  | invalidLength (n : Nat)
  | tooShort (n : Nat)
  | other (msg : String)
deriving DecidableEq, Repr

/-- Values of the characters of a base58 string, failing on the first
character outside the alphabet (`BadByte`). -/
def b58Vals : List Char → Except B58Error (List Nat)
  | [] => .ok []
  | c :: rest =>
    match b58Val c with
    | none => .error (.badByte c.toNat)
    | some v => Except.map (fun vs => v :: vs) (b58Vals rest)

/-- Base58 decoding (`bitcoin::util::base58::from`): the character values form
a big base-58 number, and each leading digit-one character denotes one leading
zero byte. -/
def base58Decode (s : List Char) : Except B58Error (List Nat) :=
  Except.map
    (fun vals =>
      List.replicate (s.takeWhile (fun c => c == '1') |>.length) 0 ++
        natDigitsBE 256 (radixNat 58 vals))
    (b58Vals s)

/-- Base58 encoding (`bitcoin::util::base58::encode_slice`): each leading zero
byte becomes a digit-one character, the rest is the base-58 number. -/
def base58Encode (data : List Nat) : List Char :=
  List.replicate (data.takeWhile (fun b => b == 0) |>.length) '1' ++
    (natDigitsBE 58 (radixNat 256 data)).map b58Digit

/-- Base58check decoding (`bitcoin::util::base58::from_check`): base58 decode,
require length at least 4, compare the little-endian u32 read of the last 4
bytes with the first 4 double-SHA256 bytes of the rest, strip the checksum. -/
def base58FromCheck (s : List Char) : Except B58Error (List Nat) :=
  match base58Decode s with
  | .error e => .error e
  | .ok ret =>
    if ret.length < 4 then .error (.tooShort ret.length)
    else
      let payload := ret.take (ret.length - 4)
      let expected := leNat ((sha256d payload).take 4)
      let actual := leNat (ret.drop (ret.length - 4))
      if expected = actual then .ok payload
      else .error (.badChecksum expected actual)

/-- Base58check encoding (`bitcoin::util::base58::check_encode_slice`): append
the first 4 double-SHA256 bytes of the payload, then base58 encode. -/
def base58CheckEncode (data : List Nat) : List Char :=
  base58Encode (data ++ (sha256d data).take 4)

/-- Modelled from the spec: the closed error taxonomy of §4.5. In the source
it is split between `tcx-primitive`'s `KeyError` (in `crate::ecc`, not under
`src/`) and `tcx-chain`'s `Error` (`src/tcx-chain/src/lib.rs`); the spec
presents the union as one closed list, which is followed here. -/
inductive KeyError where
  | invalidEcdsa
  | overflowChildNumber
  | cannotDeriveFromHardenedKey
  | invalidChildNumber
  | invalidChildNumberFormat
  | invalidDerivationPathFormat
  | invalidBase58
  | invalidLength
  | canNotDerivePairFromSeed
  | cannotDeriveKey
  | unsupportedCurve
  | invalidSecp256k1PublicKey
  | invalidMnemonic
  | invalidKeyType
  | accountNotFound
deriving DecidableEq, Repr

/-- Mirror of `bitcoin::util::bip32::Error`, the backend error matched by
`transform_bip32_error`; payloads the mapping discards are `String`/`Nat`. -/
inductive Bip32Error where
  | ecdsa (msg : String)
  | rngError (msg : String)
  | cannotDeriveFromHardenedKey
  | invalidChildNumber (n : Nat)
  | invalidChildNumberFormat
  | invalidDerivationPathFormat
deriving DecidableEq, Repr

/-- Translation of `fn transform_bip32_error` (`bip32.rs` lines 24-33). -/
def transform_bip32_error : Bip32Error → KeyError
  | .ecdsa _ => .invalidEcdsa
  | .rngError _ => .overflowChildNumber
  | .cannotDeriveFromHardenedKey => .cannotDeriveFromHardenedKey
  | .invalidChildNumber _ => .invalidChildNumber
  | .invalidChildNumberFormat => .invalidChildNumber
  | .invalidDerivationPathFormat => .invalidDerivationPathFormat

/-- Combined error type of the module: the repo's `Result<T>` carries a dynamic
`failure::Error`, into which both `KeyError` and `base58::Error` convert; the
sum keeps the two origins distinguishable, as their `Display` forms are. -/
inductive TcxError where
  | key (e : KeyError)
  | b58 (e : B58Error)
deriving DecidableEq, Repr

/-- Mirror of `bitcoin::util::bip32::ChildNumber`. -/
inductive ChildNumber where
  | normal (index : Nat)
  | hardened (index : Nat)
deriving DecidableEq, Repr

/-- Index carried by a child number. -/
def childIndex : ChildNumber → Nat
  | .normal i => i
  | .hardened i => i

/-- Mirror of `impl From<ChildNumber> for u32`: a hardened index sets the high
bit (`index | (1 << 31)`). -/
def u32OfChildNumber : ChildNumber → Nat
  | .normal i => i
  | .hardened i => i ||| 2 ^ 31

/-- Mirror of `impl From<u32> for ChildNumber`, used by the decoders as
`ChildNumber::from(cn_int)`. -/
def childNumberFromU32 (n : Nat) : ChildNumber :=
  if n &&& 2 ^ 31 ≠ 0 then .hardened (n ^^^ 2 ^ 31) else .normal n

/-- Order of the secp256k1 group. -/
def secpOrder : Nat :=
  0xfffffffffffffffffffffffffffffffebaaedce6af48a03bbfd25e8cd0364141

/-- Mirror of `bitcoin::util::bip32::ExtendedPrivKey`, the payload of the
newtype `Bip32DeterministicPrivateKey`. The `network` field is the constant
`Network::Bitcoin` everywhere in `bip32.rs` and is omitted; the secret scalar
is a `Nat` (valid when nonzero and below the curve order). -/
structure ExtendedPrivKey where
  depth : Nat
  parent_fingerprint : List Nat
  child_number : ChildNumber
  chain_code : List Nat
  private_key : Nat
deriving DecidableEq, Repr

/-- Mirror of `bitcoin::util::bip32::ExtendedPubKey`, the payload of the
newtype `Bip32DeterministicPublicKey`. The secp256k1 group is modelled
additively by its scalar group: a public key is the discrete logarithm of the
point (a `Nat` mod `secpOrder`), the generator is `1`, point addition is
addition mod the order, and the point at infinity is `0` (not a valid public
key). This captures exactly the group structure the BIP32 algorithm uses. -/
structure ExtendedPubKey where
  depth : Nat
  parent_fingerprint : List Nat
  child_number : ChildNumber
  chain_code : List Nat
  public_key : Nat
deriving DecidableEq, Repr

/-- Public point of a secret scalar (`PublicKey::from_private_key`); in the
discrete-log model, the scalar itself mod the group order. -/
def pointOfScalar (k : Nat) : Nat := k % secpOrder

/-- Serialization of a compressed public point (`PublicKey::serialize`, 33
bytes); in the discrete-log model the SEC1 tag byte is the constant `2` and
the body is the 32-byte big-endian value. -/
def serializePoint (p : Nat) : List Nat := 2 :: beBytes 32 p

/-- Parse of a 33-byte compressed point (`PublicKey::from_slice`): fails, like
secp256k1 does, unless the bytes serialize a valid point. -/
def parsePoint (l : List Nat) : Except String Nat :=
  if l.length = 33 ∧ l.getD 0 0 = 2 ∧ 0 < beNat (l.drop 1) ∧ beNat (l.drop 1) < secpOrder
  then .ok (beNat (l.drop 1)) else .error ("secp256k1: malformed public key")

/-- Parse of a 32-byte secret scalar (`secp256k1::SecretKey::from_slice`):
fails unless the value is nonzero and below the curve order. -/
def parseScalar (l : List Nat) : Except String Nat :=
  if l.length = 32 ∧ 0 < beNat l ∧ beNat l < secpOrder
  then .ok (beNat l) else .error ("secp256k1: malformed secret key")

/-- Hash primitives of the backend, parameters of the model: `hmacSha512 key
data` is HMAC-SHA512 (64 bytes), `hash160` is RIPEMD160 of SHA256 (20 bytes).
The engine in `bip32.rs` treats both as opaque, so every theorem below holds
for every instantiation, in particular for the real primitives. -/
structure HashPrims where
  hmacSha512 : List Nat → List Nat → List Nat
  hash160 : List Nat → List Nat

/-- HMAC key of master derivation: the ASCII bytes of "Bitcoin seed". -/
def bitcoinSeedKey : List Nat :=
  [66, 105, 116, 99, 111, 105, 110, 32, 115, 101, 101, 100]

/-- Mirror of `ExtendedPrivKey::new_master` (rust-bitcoin): HMAC-SHA512 of the
seed keyed by "Bitcoin seed"; the left half must parse as a secret scalar
(`SecretKey::from_slice`, failing with `Error::Ecdsa`), the right half is the
chain code; depth 0, zero parent fingerprint, child number 0. -/
def new_master (H : HashPrims) (seed : List Nat) : Except Bip32Error ExtendedPrivKey :=
  let hmac_result := H.hmacSha512 bitcoinSeedKey seed
  match parseScalar (hmac_result.take 32) with
  | .error e => .error (.ecdsa e)
  | .ok sk =>
    .ok { depth := 0, parent_fingerprint := List.replicate 4 0,
          child_number := .normal 0, chain_code := sliceBytes 32 64 hmac_result,
          private_key := sk }

/-- Translation of `Bip32DeterministicPrivateKey::from_seed` (`bip32.rs`
37-41 and 80-84): `new_master` with the backend error passed through
`transform_bip32_error`. -/
def from_seed (H : HashPrims) (seed : List Nat) : Except TcxError ExtendedPrivKey :=
  match new_master H seed with
  | .error e => .error (.key (transform_bip32_error e))
  | .ok k => .ok k

/-- Fingerprint of an extended private key (rust-bitcoin `fingerprint`): first
4 bytes of HASH160 of the serialized public point. -/
def privFingerprint (H : HashPrims) (k : ExtendedPrivKey) : List Nat :=
  (H.hash160 (serializePoint (pointOfScalar k.private_key))).take 4

/-- Fingerprint of an extended public key (rust-bitcoin `fingerprint`). -/
def pubFingerprint (H : HashPrims) (k : ExtendedPubKey) : List Nat :=
  (H.hash160 (serializePoint k.public_key)).take 4

/-- Mirror of `ExtendedPrivKey::ckd_priv` (rust-bitcoin). The HMAC keyed by
the chain code takes the serialized parent point (normal) or a zero byte and
the raw scalar (hardened), then the 4 big-endian child-number bytes. The left
half must parse as a scalar (`Error::Ecdsa` otherwise); the child scalar is
parent plus tweak mod the order (`add_assign`), failing with `Error::Ecdsa`
when the sum is zero; the parent scalar itself is valid by the `SecretKey`
type invariant. -/
def ckd_priv (H : HashPrims) (k : ExtendedPrivKey) (i : ChildNumber) :
    Except Bip32Error ExtendedPrivKey :=
  let data := match i with
    | .normal _ => serializePoint (pointOfScalar k.private_key)
    | .hardened _ => 0 :: beBytes 32 k.private_key
  let hmac_result := H.hmacSha512 k.chain_code (data ++ beBytes 4 (u32OfChildNumber i))
  match parseScalar (hmac_result.take 32) with
  | .error e => .error (.ecdsa e)
  | .ok tweak =>
    let sk := (tweak + k.private_key) % secpOrder
    if sk = 0 then .error (.ecdsa ("secp256k1: bad tweak"))
    else
      .ok { depth := (k.depth + 1) % 256,
            parent_fingerprint := privFingerprint H k,
            child_number := i,
            chain_code := sliceBytes 32 64 hmac_result,
            private_key := sk }

/-- Mirror of `ExtendedPubKey::ckd_pub` with `ckd_pub_tweak` (rust-bitcoin):
a hardened child number fails immediately with `CannotDeriveFromHardenedKey`;
otherwise the same HMAC as the normal private case, and the tweak times the
generator is added to the parent point (`add_exp_assign`; in the discrete-log
model, addition mod the order), failing with `Error::Ecdsa` when the result is
the point at infinity. -/
def ckd_pub (H : HashPrims) (k : ExtendedPubKey) (i : ChildNumber) :
    Except Bip32Error ExtendedPubKey :=
  match i with
  | .hardened _ => .error .cannotDeriveFromHardenedKey
  | .normal _ =>
    let data := serializePoint k.public_key
    let hmac_result := H.hmacSha512 k.chain_code (data ++ beBytes 4 (u32OfChildNumber i))
    match parseScalar (hmac_result.take 32) with
    | .error e => .error (.ecdsa e)
    | .ok tweak =>
      let pk := (k.public_key + tweak) % secpOrder
      if pk = 0 then .error (.ecdsa ("secp256k1: bad tweak"))
      else
        .ok { depth := (k.depth + 1) % 256,
              parent_fingerprint := pubFingerprint H k,
              child_number := i,
              chain_code := sliceBytes 32 64 hmac_result,
              public_key := pk }

/-- Modelled from the spec: §3 a Junction is an index with a hardened flag,
invariant index < 2^31 (the concrete type lives in `tcx-primitive`'s path
module, which is not under `src/`). -/
structure DeriveJunction where
  index : Nat
  hardened : Bool
deriving DecidableEq, Repr

/-- Modelled from the spec: the `j.try_into()` conversion of a junction into a
`ChildNumber` used by both `derive` impls (§3/§4.1: the hardened flag is
encoded in the high bit of the 32-bit child number; an index not below 2^31 is
rejected with `InvalidChildNumber`). -/
def junctionChildNumber (j : DeriveJunction) : Except KeyError ChildNumber :=
  if j.index < 2 ^ 31 then
    .ok (if j.hardened then .hardened j.index else .normal j.index)
  else .error .invalidChildNumber

/-- Translation of `impl Derive for Bip32DeterministicPrivateKey` (`bip32.rs`
44-58): the imperative loop over the junction iterator becomes recursion over
the junction list, each step converting the junction and calling `ckd_priv`
with errors through `transform_bip32_error`. -/
def derivePriv (H : HashPrims) (k : ExtendedPrivKey) :
    List DeriveJunction → Except TcxError ExtendedPrivKey
  | [] => .ok k
  | j :: path =>
    match junctionChildNumber j with
    | .error e => .error (.key e)
    | .ok child_number =>
      match ckd_priv H k child_number with
      | .error e => .error (.key (transform_bip32_error e))
      | .ok k' => derivePriv H k' path

/-- Translation of `impl Derive for Bip32DeterministicPublicKey` (`bip32.rs`
60-74), same loop with `ckd_pub`. -/
def derivePub (H : HashPrims) (k : ExtendedPubKey) :
    List DeriveJunction → Except TcxError ExtendedPubKey
  | [] => .ok k
  | j :: path =>
    match junctionChildNumber j with
    | .error e => .error (.key e)
    | .ok child_number =>
      match ckd_pub H k child_number with
      | .error e => .error (.key (transform_bip32_error e))
      | .ok k' => derivePub H k' path

/-- Single-junction child derivation on a private key: the body of one loop
iteration of `derive` (junction conversion, then `ckd_priv`). -/
def stepPriv (H : HashPrims) (k : ExtendedPrivKey) (j : DeriveJunction) :
    Except TcxError ExtendedPrivKey :=
  match junctionChildNumber j with
  | .error e => .error (.key e)
  | .ok child_number =>
    match ckd_priv H k child_number with
    | .error e => .error (.key (transform_bip32_error e))
    | .ok k' => .ok k'

/-- Single-junction child derivation on a public key. -/
def stepPub (H : HashPrims) (k : ExtendedPubKey) (j : DeriveJunction) :
    Except TcxError ExtendedPubKey :=
  match junctionChildNumber j with
  | .error e => .error (.key e)
  | .ok child_number =>
    match ckd_pub H k child_number with
    | .error e => .error (.key (transform_bip32_error e))
    | .ok k' => .ok k'

/-- Translation of `deterministic_public_key` (`bip32.rs` 90-93), rust-bitcoin
`ExtendedPubKey::from_private`: the header fields are copied and the public
point is the point of the scalar. -/
def deterministic_public_key (k : ExtendedPrivKey) : ExtendedPubKey :=
  { depth := k.depth, parent_fingerprint := k.parent_fingerprint,
    child_number := k.child_number, chain_code := k.chain_code,
    public_key := pointOfScalar k.private_key }

/-- Translation of `to_ss58check_with_version` for the private key (`bip32.rs`
174-188). The writes into the 78-byte array at the disjoint ranges [0:4), [4],
[5:9), [9:13), [13:45), [45], [46:78) are translated as concatenation; the
Rust fixed-size field types guarantee every length except that of the
caller-supplied version, whose `copy_from_slice` panics unless it is 4 bytes —
that panic is modelled as `none`. -/
def to_ss58check_priv (k : ExtendedPrivKey) (version : List Nat) : Option String :=
  if version.length = 4 then
    some (String.mk (base58CheckEncode
      (version ++ [k.depth % 256] ++ k.parent_fingerprint ++
       beBytes 4 (u32OfChildNumber k.child_number) ++ k.chain_code ++
       [0] ++ beBytes 32 k.private_key)))
  else none

/-- Translation of `to_ss58check_with_version` for the public key (`bip32.rs`
129-141): same layout with the 33 serialized point bytes at [45:78). -/
def to_ss58check_pub (k : ExtendedPubKey) (version : List Nat) : Option String :=
  if version.length = 4 then
    some (String.mk (base58CheckEncode
      (version ++ [k.depth % 256] ++ k.parent_fingerprint ++
       beBytes 4 (u32OfChildNumber k.child_number) ++ k.chain_code ++
       serializePoint k.public_key)))
  else none

/-- Translation of `from_ss58check_with_version` for the public key (`bip32.rs`
105-127): base58check decode, reject a payload not of 78 bytes with
`KeyError::InvalidBase58`, then rebuild the key from the fixed offsets, with
the point parse error wrapped as `base58::Error::Other`. -/
def from_ss58check_pub (s : String) : Except TcxError (ExtendedPubKey × List Nat) :=
  match base58FromCheck s.data with
  | .error e => .error (.b58 e)
  | .ok data =>
    if data.length ≠ 78 then .error (.key .invalidBase58)
    else
      let cn_int := beNat (sliceBytes 9 13 data)
      match parsePoint (sliceBytes 45 78 data) with
      | .error e => .error (.b58 (.other e))
      | .ok public_key =>
        .ok ({ depth := data.getD 4 0, parent_fingerprint := sliceBytes 5 9 data,
               child_number := childNumberFromU32 cn_int,
               chain_code := sliceBytes 13 45 data, public_key := public_key },
             sliceBytes 0 4 data)

/-- Translation of `from_ss58check_with_version` for the private key
(`bip32.rs` 145-172): as for the public key, but a payload not of 78 bytes is
rejected with base58's `InvalidLength(len)`, and the secret scalar is read
from bytes [46:78) — the pad byte at offset 45 is never inspected. -/
def from_ss58check_priv (s : String) : Except TcxError (ExtendedPrivKey × List Nat) :=
  match base58FromCheck s.data with
  | .error e => .error (.b58 e)
  | .ok data =>
    if data.length ≠ 78 then .error (.b58 (.invalidLength data.length))
    else
      let cn_int := beNat (sliceBytes 9 13 data)
      match parseScalar (sliceBytes 46 78 data) with
      | .error e => .error (.b58 (.other e))
      | .ok private_key =>
        .ok ({ depth := data.getD 4 0, parent_fingerprint := sliceBytes 5 9 data,
               child_number := childNumberFromU32 cn_int,
               chain_code := sliceBytes 13 45 data, private_key := private_key },
             sliceBytes 0 4 data)

/-- Well-formedness guaranteed by the Rust types for an `ExtendedPrivKey`:
byte-valued fields in range, 4-byte fingerprint, 32-byte chain code, 31-bit
child index, valid secret scalar. -/
def WFPriv (k : ExtendedPrivKey) : Prop :=
  k.depth < 256 ∧ k.parent_fingerprint.length = 4 ∧
  (∀ b ∈ k.parent_fingerprint, b < 256) ∧
  childIndex k.child_number < 2 ^ 31 ∧
  k.chain_code.length = 32 ∧ (∀ b ∈ k.chain_code, b < 256) ∧
  0 < k.private_key ∧ k.private_key < secpOrder

/-- Well-formedness guaranteed by the Rust types for an `ExtendedPubKey`. -/
def WFPub (k : ExtendedPubKey) : Prop :=
  k.depth < 256 ∧ k.parent_fingerprint.length = 4 ∧
  (∀ b ∈ k.parent_fingerprint, b < 256) ∧
  childIndex k.child_number < 2 ^ 31 ∧
  k.chain_code.length = 32 ∧ (∀ b ∈ k.chain_code, b < 256) ∧
  0 < k.public_key ∧ k.public_key < secpOrder

instance (k : ExtendedPrivKey) : Decidable (WFPriv k) := by
  unfold WFPriv; infer_instance

instance (k : ExtendedPubKey) : Decidable (WFPub k) := by
  unfold WFPub; infer_instance

deriving instance DecidableEq for Except

theorem beBytes_length (w : Nat) : ∀ n, (beBytes w n).length = w := by
  induction w with
  | zero => intro n; rfl
  | succ w ih => intro n; simp [beBytes, ih]

theorem beBytes_lt (w : Nat) : ∀ n, ∀ b ∈ beBytes w n, b < 256 := by
  induction w with
  | zero => intro n b hb; simp [beBytes] at hb
  | succ w ih =>
    intro n b hb
    simp only [beBytes, List.mem_append, List.mem_singleton] at hb
    rcases hb with h | h
    · exact ih _ b h
    · subst h; exact Nat.mod_lt _ (by norm_num)

theorem radixNat_append_singleton (r : Nat) (l : List Nat) (x : Nat) :
    radixNat r (l ++ [x]) = r * radixNat r l + x := by
  simp [radixNat, List.foldl_append]

theorem beNat_beBytes (w : Nat) : ∀ n, n < 256 ^ w → beNat (beBytes w n) = n := by
  induction w with
  | zero =>
    intro n h
    simp only [pow_zero, Nat.lt_one_iff] at h
    subst h; rfl
  | succ w ih =>
    intro n h
    have h2 : n / 256 < 256 ^ w := by
      rw [Nat.div_lt_iff_lt_mul (by norm_num)]
      calc n < 256 ^ (w + 1) := h
        _ = 256 ^ w * 256 := by ring
    show radixNat 256 (beBytes w (n / 256) ++ [n % 256]) = n
    rw [radixNat_append_singleton]
    have := ih (n / 256) h2
    unfold beNat at this
    rw [this]
    omega

theorem radixNat_eq_ofDigits (r : Nat) (l : List Nat) :
    radixNat r l = Nat.ofDigits r l.reverse := by
  induction l using List.reverseRecOn with
  | nil => simp [radixNat, Nat.ofDigits]
  | append_singleton l x ih =>
    rw [radixNat_append_singleton, List.reverse_append]
    simp only [List.reverse_cons, List.reverse_nil, List.nil_append,
      List.singleton_append, Nat.ofDigits_cons, ih]
    ring

theorem natDigitsBEAux_eq (r : Nat) (hr : 1 < r) :
    ∀ f n, n ≤ f → natDigitsBEAux r f n = (Nat.digits r n).reverse := by
  intro f
  induction f with
  | zero =>
    intro n hn
    have : n = 0 := Nat.le_zero.mp hn
    subst this
    simp [natDigitsBEAux]
  | succ f ih =>
    intro n hn
    by_cases h0 : n = 0
    · subst h0; simp [natDigitsBEAux]
    · have hdiv : n / r ≤ f := by
        have : n / r < n := Nat.div_lt_self (Nat.pos_of_ne_zero h0) hr
        omega
      simp only [natDigitsBEAux, if_neg h0]
      rw [ih _ hdiv, Nat.digits_def' hr (Nat.pos_of_ne_zero h0), List.reverse_cons]

theorem natDigitsBE_eq (r n : Nat) (hr : 1 < r) :
    natDigitsBE r n = (Nat.digits r n).reverse :=
  natDigitsBEAux_eq r hr n n le_rfl

theorem natDigitsBE_radixNat (r : Nat) (hr : 1 < r) (l : List Nat)
    (hl : ∀ b ∈ l, b < r) (hh : l.head? ≠ some 0) :
    natDigitsBE r (radixNat r l) = l := by
  rw [natDigitsBE_eq _ _ hr, radixNat_eq_ofDigits,
      Nat.digits_ofDigits r hr l.reverse
        (fun d hd => hl d (List.mem_reverse.mp hd))
        (fun hne => ?_), List.reverse_reverse]
  intro hlast
  apply hh
  have h1 : l.reverse.getLast? = some 0 := by
    rw [List.getLast?_eq_getLast _ hne, hlast]
  rwa [List.getLast?_reverse] at h1

theorem radixNat_replicate_zero (r z : Nat) (l : List Nat) :
    radixNat r (List.replicate z 0 ++ l) = radixNat r l := by
  induction z with
  | zero => rfl
  | succ z ih =>
    show radixNat r (0 :: (List.replicate z 0 ++ l)) = radixNat r l
    unfold radixNat at *
    simpa using ih

theorem radixNat_cons (r : Nat) (h : Nat) (t : List Nat) :
    radixNat r (h :: t) = Nat.ofDigits r t.reverse + r ^ t.length * h := by
  rw [radixNat_eq_ofDigits, List.reverse_cons, Nat.ofDigits_append]
  simp [Nat.ofDigits]

theorem radixNat_pos (r : Nat) (hr : 0 < r) (h : Nat) (t : List Nat) (hh : h ≠ 0) :
    0 < radixNat r (h :: t) := by
  rw [radixNat_cons]
  have : 0 < r ^ t.length * h :=
    Nat.mul_pos (Nat.pos_pow_of_pos _ hr) (Nat.pos_of_ne_zero hh)
  omega

theorem b58Val_b58Digit : ∀ d, d < 58 → b58Val (b58Digit d) = some d := by decide

theorem b58Digit_ne_one : ∀ d, d < 58 → d ≠ 0 → (b58Digit d == '1') = false := by decide

theorem b58Val_one : b58Val '1' = some 0 := by rfl

theorem b58Vals_append (s t : List Char) (vs wt : List Nat)
    (h1 : b58Vals s = .ok vs) (h2 : b58Vals t = .ok wt) :
    b58Vals (s ++ t) = .ok (vs ++ wt) := by
  induction s generalizing vs with
  | nil =>
    simp only [b58Vals] at h1
    cases h1
    simpa using h2
  | cons c cs ih =>
    simp only [b58Vals] at h1 ⊢
    cases hv : b58Val c with
    | none => rw [hv] at h1; exact absurd h1 (by simp)
    | some v =>
      rw [hv] at h1
      cases hcs : b58Vals cs with
      | error e => rw [hcs] at h1; exact absurd h1 (by simp [Except.map])
      | ok ws =>
        rw [hcs] at h1
        simp only [Except.map] at h1
        cases h1
        show Except.map (fun vs => v :: vs) (b58Vals (cs ++ t)) = _
        rw [ih ws hcs]
        simp [Except.map]

theorem b58Vals_replicate_one (z : Nat) :
    b58Vals (List.replicate z '1') = .ok (List.replicate z 0) := by
  induction z with
  | zero => rfl
  | succ z ih =>
    show b58Vals ('1' :: List.replicate z '1') = _
    simp only [b58Vals, b58Val_one, ih, Except.map, List.replicate_succ]

theorem b58Vals_map_digit (ds : List Nat) (hd : ∀ d ∈ ds, d < 58) :
    b58Vals (ds.map b58Digit) = .ok ds := by
  induction ds with
  | nil => rfl
  | cons d t ih =>
    simp only [List.map_cons, b58Vals,
      b58Val_b58Digit d (hd d (List.mem_cons_self d t)),
      ih fun x hx => hd x (List.mem_cons_of_mem d hx), Except.map]

theorem takeWhile_replicate_append {α : Type} (p : α → Bool) (a : α) (hp : p a = true)
    (z : Nat) (l : List α) :
    (List.replicate z a ++ l).takeWhile p = List.replicate z a ++ l.takeWhile p := by
  induction z with
  | zero => rfl
  | succ z ih =>
    show ((a :: (List.replicate z a ++ l)).takeWhile p) = _
    rw [List.takeWhile_cons_of_pos hp, ih, List.replicate_succ, List.cons_append]

theorem natDigitsBE_lt (r n : Nat) (hr : 1 < r) : ∀ d ∈ natDigitsBE r n, d < r := by
  intro d hd
  rw [natDigitsBE_eq _ _ hr] at hd
  exact Nat.digits_lt_base hr (List.mem_reverse.mp hd)

theorem natDigitsBE_head_ne_zero (r n : Nat) (hr : 1 < r) :
    (natDigitsBE r n).head? ≠ some 0 := by
  rw [natDigitsBE_eq _ _ hr]
  by_cases hn : n = 0
  · subst hn; simp
  · have hne : Nat.digits r n ≠ [] := Nat.digits_ne_nil_iff_ne_zero.mpr hn
    have hrev : (Nat.digits r n).reverse.head? = (Nat.digits r n).getLast? := by
      rw [← List.getLast?_reverse, List.reverse_reverse]
    rw [hrev, List.getLast?_eq_getLast _ hne]
    intro hcontra
    apply Nat.getLast_digit_ne_zero r hn
    exact Option.some.inj hcontra

theorem natDigitsBE_ne_nil (r n : Nat) (hr : 1 < r) (hn : n ≠ 0) :
    natDigitsBE r n ≠ [] := by
  rw [natDigitsBE_eq _ _ hr]
  simpa using Nat.digits_ne_nil_iff_ne_zero.mpr hn

theorem dropWhile_head_not {α : Type} (p : α → Bool) (l : List α) (x : α) (xs : List α)
    (h : l.dropWhile p = x :: xs) : p x = false := by
  induction l with
  | nil => simp [List.dropWhile] at h
  | cons a t ih =>
    by_cases hp : p a = true
    · rw [List.dropWhile_cons_of_pos hp] at h
      exact ih h
    · rw [List.dropWhile_cons_of_neg hp] at h
      cases h
      exact Bool.not_eq_true (p x) |>.mp hp

theorem takeWhile_eq_replicate_zero (l : List Nat) :
    l.takeWhile (fun b => b == 0) =
      List.replicate (l.takeWhile (fun b => b == 0)).length 0 := by
  apply List.eq_replicate_of_mem
  intro b hb
  have := List.mem_takeWhile_imp hb
  simpa using this

theorem base58Decode_encode (l : List Nat) (hl : ∀ b ∈ l, b < 256) :
    base58Decode (base58Encode l) = .ok l := by
  set z := (l.takeWhile (fun b => b == 0)).length with hz
  have hsplit : List.replicate z 0 ++ l.dropWhile (fun b => b == 0) = l := by
    rw [hz, ← takeWhile_eq_replicate_zero, List.takeWhile_append_dropWhile]
  have hn : radixNat 256 l = radixNat 256 (l.dropWhile (fun b => b == 0)) := by
    conv_lhs => rw [← hsplit]
    rw [radixNat_replicate_zero]
  have hencode : base58Encode l =
      List.replicate z '1' ++ (natDigitsBE 58 (radixNat 256 l)).map b58Digit := rfl
  cases hrest : l.dropWhile (fun b => b == 0) with
  | nil =>
    have hn0 : radixNat 256 l = 0 := by rw [hn, hrest]; rfl
    have hl0 : l = List.replicate z 0 := by rw [← hsplit, hrest, List.append_nil]
    rw [hencode, hn0]
    show base58Decode (List.replicate z '1' ++ []) = _
    rw [List.append_nil]
    unfold base58Decode
    rw [b58Vals_replicate_one]
    have htw : (List.replicate z '1').takeWhile (fun c => c == '1') =
        List.replicate z '1' := by
      simp [List.takeWhile_replicate]
    simp only [Except.map, htw, List.length_replicate]
    have : radixNat 58 (List.replicate z 0) = 0 := by
      have := radixNat_replicate_zero 58 z []
      simpa using this
    rw [this]
    show Except.ok (List.replicate z 0 ++ []) = Except.ok l
    rw [List.append_nil, ← hl0]
  | cons h t =>
    have hh0 : (h == 0) = false := dropWhile_head_not _ l h t hrest
    have hhne : h ≠ 0 := by simpa using hh0
    have hnpos : radixNat 256 l ≠ 0 := by
      rw [hn, hrest]
      exact Nat.pos_iff_ne_zero.mp (radixNat_pos 256 (by norm_num) h t hhne)
    have hdlt : ∀ d ∈ natDigitsBE 58 (radixNat 256 l), d < 58 :=
      natDigitsBE_lt 58 _ (by norm_num)
    have hdne : natDigitsBE 58 (radixNat 256 l) ≠ [] :=
      natDigitsBE_ne_nil 58 _ (by norm_num) hnpos
    obtain ⟨d0, ds, hds⟩ := List.exists_cons_of_ne_nil hdne
    have hd0lt : d0 < 58 := hdlt d0 (by rw [hds]; exact List.mem_cons_self _ _)
    have hd0ne : d0 ≠ 0 := by
      intro hcontra
      apply natDigitsBE_head_ne_zero 58 (radixNat 256 l) (by norm_num)
      rw [hds, hcontra]
      rfl
    rw [hencode]
    unfold base58Decode
    rw [b58Vals_append _ _ _ _ (b58Vals_replicate_one z) (b58Vals_map_digit _ hdlt)]
    simp only [Except.map]
    have htw : ((List.replicate z '1' ++
        (natDigitsBE 58 (radixNat 256 l)).map b58Digit).takeWhile
          (fun c => c == '1')).length = z := by
      rw [takeWhile_replicate_append (fun c : Char => c == '1') '1' rfl]
      rw [hds, List.map_cons, List.takeWhile_cons_of_neg]
      · simp
      · rw [b58Digit_ne_one d0 hd0lt hd0ne]
        simp
    rw [htw, radixNat_replicate_zero]
    have hval : radixNat 58 (natDigitsBE 58 (radixNat 256 l)) = radixNat 256 l := by
      rw [natDigitsBE_eq 58 _ (by norm_num), radixNat_eq_ofDigits,
          List.reverse_reverse, Nat.ofDigits_digits]
    rw [hval]
    have hbytes : natDigitsBE 256 (radixNat 256 l) = h :: t := by
      rw [hn, hrest]
      apply natDigitsBE_radixNat 256 (by norm_num) (h :: t)
      · intro b hb
        apply hl
        rw [← hsplit, hrest]
        exact List.mem_append_right _ hb
      · simpa using hhne
    rw [hbytes, ← hrest, hsplit]

theorem sha256Round_length (ws st : List Nat) (i : Nat) :
    (sha256Round ws st i).length = 8 := rfl

theorem foldl_sha256Round_length (ws : List Nat) (l : List Nat) :
    ∀ hs : List Nat, hs.length = 8 → (l.foldl (sha256Round ws) hs).length = 8 := by
  induction l with
  | nil => intro hs h; exact h
  | cons i t ih =>
    intro hs h
    rw [List.foldl_cons]
    exact ih _ (sha256Round_length ws hs i)

theorem sha256Compress_length (hs block : List Nat) (h : hs.length = 8) :
    (sha256Compress hs block).length = 8 := by
  unfold sha256Compress
  rw [List.length_zipWith, foldl_sha256Round_length _ _ _ h, h]
  rfl

theorem foldl_sha256Compress_length (blocks : List (List Nat)) :
    ∀ hs : List Nat, hs.length = 8 →
      (blocks.foldl sha256Compress hs).length = 8 := by
  induction blocks with
  | nil => intro hs h; exact h
  | cons b t ih =>
    intro hs h
    rw [List.foldl_cons]
    exact ih _ (sha256Compress_length hs b h)

theorem flatMap_beBytes4_length (st : List Nat) :
    (st.flatMap (beBytes 4)).length = 4 * st.length := by
  induction st with
  | nil => rfl
  | cons x t ih =>
    rw [List.flatMap_cons, List.length_append, ih, beBytes_length, List.length_cons]
    ring

theorem sha256_length (msg : List Nat) : (sha256 msg).length = 32 := by
  unfold sha256
  rw [flatMap_beBytes4_length, foldl_sha256Compress_length _ sha256Init rfl]

theorem sha256d_length (msg : List Nat) : (sha256d msg).length = 32 :=
  sha256_length (sha256 msg)

theorem sha256_lt (msg : List Nat) : ∀ b ∈ sha256 msg, b < 256 := by
  intro b hb
  unfold sha256 at hb
  obtain ⟨x, _, hbx⟩ := List.mem_flatMap.mp hb
  exact beBytes_lt 4 x b hbx

theorem sha256d_lt (msg : List Nat) : ∀ b ∈ sha256d msg, b < 256 :=
  sha256_lt (sha256 msg)

theorem base58FromCheck_encode (data : List Nat) (hb : ∀ b ∈ data, b < 256) :
    base58FromCheck (base58CheckEncode data) = .ok data := by
  have hck : ((sha256d data).take 4).length = 4 := by
    rw [List.length_take, sha256d_length]
    rfl
  have hfull : ∀ b ∈ data ++ (sha256d data).take 4, b < 256 := by
    intro b hbm
    rcases List.mem_append.mp hbm with h | h
    · exact hb b h
    · exact sha256d_lt _ b (List.mem_of_mem_take h)
  have hlen : (data ++ (sha256d data).take 4).length = data.length + 4 := by
    rw [List.length_append, hck]
  unfold base58CheckEncode base58FromCheck
  rw [base58Decode_encode _ hfull]
  dsimp only
  rw [hlen]
  have hnl : ¬ (data.length + 4 < 4) := by omega
  rw [if_neg hnl]
  have hsub : data.length + 4 - 4 = data.length := by omega
  rw [hsub, List.take_left data _, List.drop_left data _, if_pos rfl]

theorem and_high_bit_of_lt (n : Nat) (hn : n < 2 ^ 31) : n &&& 2 ^ 31 = 0 := by
  rw [Nat.and_two_pow, Nat.testBit_lt_two_pow hn]
  rfl

theorem lor_high_bit_ne (i : Nat) : (i ||| 2 ^ 31) &&& 2 ^ 31 ≠ 0 := by
  rw [Nat.and_two_pow, Nat.testBit_lor, Nat.testBit_two_pow_self]
  simp

theorem lor_high_bit_xor (i : Nat) (hi : i < 2 ^ 31) :
    (i ||| 2 ^ 31) ^^^ 2 ^ 31 = i := by
  apply Nat.eq_of_testBit_eq
  intro j
  rw [Nat.testBit_xor, Nat.testBit_lor]
  by_cases hj : j = 31
  · subst hj
    rw [Nat.testBit_two_pow_self, Nat.testBit_lt_two_pow hi]
    rfl
  · have h2 : (2 ^ 31).testBit j = false := by
      rw [Nat.testBit_two_pow]
      simpa using fun hc => hj hc.symm
    rw [h2]
    simp

theorem childNumberFromU32_of (cn : ChildNumber) (h : childIndex cn < 2 ^ 31) :
    childNumberFromU32 (u32OfChildNumber cn) = cn := by
  cases cn with
  | normal i =>
    have h' : i < 2 ^ 31 := h
    unfold childNumberFromU32 u32OfChildNumber
    have hz : i &&& 2 ^ 31 = 0 := and_high_bit_of_lt i h'
    rw [if_neg (by rw [hz]; simp)]
  | hardened i =>
    have h' : i < 2 ^ 31 := h
    unfold childNumberFromU32 u32OfChildNumber
    rw [if_pos (lor_high_bit_ne i), lor_high_bit_xor i h']

theorem u32OfChildNumber_lt (cn : ChildNumber) (h : childIndex cn < 2 ^ 31) :
    u32OfChildNumber cn < 2 ^ 32 := by
  cases cn with
  | normal i =>
    have h' : i < 2 ^ 31 := h
    calc i < 2 ^ 31 := h'
      _ < 2 ^ 32 := by norm_num
  | hardened i =>
    have h' : i < 2 ^ 31 := h
    exact Nat.or_lt_two_pow (lt_trans h' (by norm_num)) (by norm_num)

theorem sliceBytes_of_append (a b : Nat) (P l₁ l₂ l₃ : List Nat)
    (hP : P = l₁ ++ (l₂ ++ l₃)) (h₁ : l₁.length = a) (h₂ : l₂.length = b - a) :
    sliceBytes a b P = l₂ := by
  subst hP
  unfold sliceBytes
  rw [List.drop_left' h₁, List.take_left' h₂]

theorem getD_of_append (P l₁ l₃ : List Nat) (x a : Nat)
    (hP : P = l₁ ++ (x :: l₃)) (h₁ : l₁.length = a) :
    P.getD a 0 = x := by
  subst hP
  rw [List.getD_append_right _ _ _ _ (le_of_eq h₁), h₁]
  simp

/-- The 78-byte payload assembled by the private-key encoder (layout of §4.4:
version, depth, parent fingerprint, big-endian child number, chain code, zero
pad byte, secret scalar). -/
def privPayload (k : ExtendedPrivKey) (version : List Nat) : List Nat :=
  version ++ [k.depth % 256] ++ k.parent_fingerprint ++
  beBytes 4 (u32OfChildNumber k.child_number) ++ k.chain_code ++
  [0] ++ beBytes 32 k.private_key

/-- The 78-byte payload assembled by the public-key encoder (same layout with
the 33 serialized point bytes as key material). -/
def pubPayload (k : ExtendedPubKey) (version : List Nat) : List Nat :=
  version ++ [k.depth % 256] ++ k.parent_fingerprint ++
  beBytes 4 (u32OfChildNumber k.child_number) ++ k.chain_code ++
  serializePoint k.public_key

theorem to_ss58check_priv_eq (k : ExtendedPrivKey) (v : List Nat) (hv : v.length = 4) :
    to_ss58check_priv k v = some (String.mk (base58CheckEncode (privPayload k v))) := by
  unfold to_ss58check_priv privPayload
  rw [if_pos hv]

theorem to_ss58check_pub_eq (k : ExtendedPubKey) (v : List Nat) (hv : v.length = 4) :
    to_ss58check_pub k v = some (String.mk (base58CheckEncode (pubPayload k v))) := by
  unfold to_ss58check_pub pubPayload
  rw [if_pos hv]

theorem privPayload_length (k : ExtendedPrivKey) (v : List Nat)
    (hpf : k.parent_fingerprint.length = 4) (hcc : k.chain_code.length = 32)
    (hv : v.length = 4) : (privPayload k v).length = 78 := by
  simp [privPayload, List.length_append, beBytes_length, hpf, hcc, hv]

theorem pubPayload_length (k : ExtendedPubKey) (v : List Nat)
    (hpf : k.parent_fingerprint.length = 4) (hcc : k.chain_code.length = 32)
    (hv : v.length = 4) : (pubPayload k v).length = 78 := by
  simp [pubPayload, serializePoint, List.length_append, beBytes_length, hpf, hcc, hv]

theorem privPayload_bytes (k : ExtendedPrivKey) (v : List Nat)
    (hpfb : ∀ b ∈ k.parent_fingerprint, b < 256)
    (hccb : ∀ b ∈ k.chain_code, b < 256) (hvb : ∀ b ∈ v, b < 256) :
    ∀ b ∈ privPayload k v, b < 256 := by
  intro b hb
  simp only [privPayload, List.mem_append, List.mem_singleton] at hb
  rcases hb with ((((((h | h) | h) | h) | h) | h) | h)
  · exact hvb b h
  · subst h; exact Nat.mod_lt _ (by norm_num)
  · exact hpfb b h
  · exact beBytes_lt _ _ b h
  · exact hccb b h
  · subst h; norm_num
  · exact beBytes_lt _ _ b h

theorem pubPayload_bytes (k : ExtendedPubKey) (v : List Nat)
    (hpfb : ∀ b ∈ k.parent_fingerprint, b < 256)
    (hccb : ∀ b ∈ k.chain_code, b < 256) (hvb : ∀ b ∈ v, b < 256) :
    ∀ b ∈ pubPayload k v, b < 256 := by
  intro b hb
  simp only [pubPayload, serializePoint, List.mem_append, List.mem_singleton,
    List.mem_cons, List.not_mem_nil, or_false] at hb
  rcases hb with (((((h | h) | h) | h) | h) | h | h)
  · exact hvb b h
  · subst h; exact Nat.mod_lt _ (by norm_num)
  · exact hpfb b h
  · exact beBytes_lt _ _ b h
  · exact hccb b h
  · subst h; norm_num
  · exact beBytes_lt _ _ b h

theorem secpOrder_lt : secpOrder < 256 ^ 32 := by
  unfold secpOrder
  norm_num

theorem secpOrder_pos : 0 < secpOrder := by
  unfold secpOrder
  norm_num

theorem parseScalar_beBytes (x : Nat) (h0 : 0 < x) (hx : x < secpOrder) :
    parseScalar (beBytes 32 x) = .ok x := by
  have hben : beNat (beBytes 32 x) = x := beNat_beBytes 32 x (lt_trans hx secpOrder_lt)
  unfold parseScalar
  rw [if_pos ⟨beBytes_length 32 x, by rw [hben]; exact h0, by rw [hben]; exact hx⟩,
    hben]

theorem parsePoint_serialize (p : Nat) (h0 : 0 < p) (hp : p < secpOrder) :
    parsePoint (serializePoint p) = .ok p := by
  have hben : beNat ((serializePoint p).drop 1) = p := by
    show beNat (beBytes 32 p) = p
    exact beNat_beBytes 32 p (lt_trans hp secpOrder_lt)
  unfold parsePoint
  rw [if_pos ⟨by simp [serializePoint, beBytes_length], rfl,
    by rw [hben]; exact h0, by rw [hben]; exact hp⟩, hben]

theorem from_ss58check_priv_encode (k : ExtendedPrivKey) (v : List Nat)
    (hk : WFPriv k) (hv : v.length = 4) (hvb : ∀ b ∈ v, b < 256) :
    from_ss58check_priv (String.mk (base58CheckEncode (privPayload k v))) =
      .ok (k, v) := by
  obtain ⟨hd, hpf, hpfb, hcn, hcc, hccb, hsk0, hskn⟩ := hk
  have h0 : sliceBytes 0 4 (privPayload k v) = v :=
    sliceBytes_of_append 0 4 _ [] v
      ([k.depth % 256] ++ k.parent_fingerprint ++
        beBytes 4 (u32OfChildNumber k.child_number) ++ k.chain_code ++
        [0] ++ beBytes 32 k.private_key)
      (by simp [privPayload]) rfl (by rw [hv])
  have hgd : (privPayload k v).getD 4 0 = k.depth % 256 :=
    getD_of_append _ v
      (k.parent_fingerprint ++ beBytes 4 (u32OfChildNumber k.child_number) ++
        k.chain_code ++ [0] ++ beBytes 32 k.private_key)
      (k.depth % 256) 4 (by simp [privPayload]) hv
  have h5 : sliceBytes 5 9 (privPayload k v) = k.parent_fingerprint :=
    sliceBytes_of_append 5 9 _ (v ++ [k.depth % 256]) k.parent_fingerprint
      (beBytes 4 (u32OfChildNumber k.child_number) ++ k.chain_code ++
        [0] ++ beBytes 32 k.private_key)
      (by simp [privPayload]) (by simp [hv]) (by rw [hpf])
  have h9 : sliceBytes 9 13 (privPayload k v) =
      beBytes 4 (u32OfChildNumber k.child_number) :=
    sliceBytes_of_append 9 13 _ (v ++ [k.depth % 256] ++ k.parent_fingerprint)
      (beBytes 4 (u32OfChildNumber k.child_number))
      (k.chain_code ++ [0] ++ beBytes 32 k.private_key)
      (by simp [privPayload]) (by simp [hv, hpf]) (by simp [beBytes_length])
  have h13 : sliceBytes 13 45 (privPayload k v) = k.chain_code :=
    sliceBytes_of_append 13 45 _
      (v ++ [k.depth % 256] ++ k.parent_fingerprint ++
        beBytes 4 (u32OfChildNumber k.child_number))
      k.chain_code ([0] ++ beBytes 32 k.private_key)
      (by simp [privPayload]) (by simp [hv, hpf, beBytes_length]) (by rw [hcc])
  have h46 : sliceBytes 46 78 (privPayload k v) = beBytes 32 k.private_key :=
    sliceBytes_of_append 46 78 _
      (v ++ [k.depth % 256] ++ k.parent_fingerprint ++
        beBytes 4 (u32OfChildNumber k.child_number) ++ k.chain_code ++ [0])
      (beBytes 32 k.private_key) []
      (by simp [privPayload]) (by simp [hv, hpf, hcc, beBytes_length])
      (by simp [beBytes_length])
  have hcnu : beNat (beBytes 4 (u32OfChildNumber k.child_number)) =
      u32OfChildNumber k.child_number :=
    beNat_beBytes 4 _ (by
      have := u32OfChildNumber_lt k.child_number hcn
      norm_num at this ⊢
      exact this)
  unfold from_ss58check_priv
  have hsd : (String.mk (base58CheckEncode (privPayload k v))).data =
      base58CheckEncode (privPayload k v) := rfl
  rw [hsd, base58FromCheck_encode _ (privPayload_bytes k v hpfb hccb hvb)]
  dsimp only
  rw [privPayload_length k v hpf hcc hv, if_neg (by simp)]
  rw [h46, parseScalar_beBytes _ hsk0 hskn]
  dsimp only
  rw [h9, hcnu, childNumberFromU32_of _ hcn, hgd, h5, h13, h0,
    Nat.mod_eq_of_lt hd]

theorem from_ss58check_pub_encode (k : ExtendedPubKey) (v : List Nat)
    (hk : WFPub k) (hv : v.length = 4) (hvb : ∀ b ∈ v, b < 256) :
    from_ss58check_pub (String.mk (base58CheckEncode (pubPayload k v))) =
      .ok (k, v) := by
  obtain ⟨hd, hpf, hpfb, hcn, hcc, hccb, hpk0, hpkn⟩ := hk
  have h0 : sliceBytes 0 4 (pubPayload k v) = v :=
    sliceBytes_of_append 0 4 _ [] v
      ([k.depth % 256] ++ k.parent_fingerprint ++
        beBytes 4 (u32OfChildNumber k.child_number) ++ k.chain_code ++
        serializePoint k.public_key)
      (by simp [pubPayload]) rfl (by rw [hv])
  have hgd : (pubPayload k v).getD 4 0 = k.depth % 256 :=
    getD_of_append _ v
      (k.parent_fingerprint ++ beBytes 4 (u32OfChildNumber k.child_number) ++
        k.chain_code ++ serializePoint k.public_key)
      (k.depth % 256) 4 (by simp [pubPayload]) hv
  have h5 : sliceBytes 5 9 (pubPayload k v) = k.parent_fingerprint :=
    sliceBytes_of_append 5 9 _ (v ++ [k.depth % 256]) k.parent_fingerprint
      (beBytes 4 (u32OfChildNumber k.child_number) ++ k.chain_code ++
        serializePoint k.public_key)
      (by simp [pubPayload]) (by simp [hv]) (by rw [hpf])
  have h9 : sliceBytes 9 13 (pubPayload k v) =
      beBytes 4 (u32OfChildNumber k.child_number) :=
    sliceBytes_of_append 9 13 _ (v ++ [k.depth % 256] ++ k.parent_fingerprint)
      (beBytes 4 (u32OfChildNumber k.child_number))
      (k.chain_code ++ serializePoint k.public_key)
      (by simp [pubPayload]) (by simp [hv, hpf]) (by simp [beBytes_length])
  have h13 : sliceBytes 13 45 (pubPayload k v) = k.chain_code :=
    sliceBytes_of_append 13 45 _
      (v ++ [k.depth % 256] ++ k.parent_fingerprint ++
        beBytes 4 (u32OfChildNumber k.child_number))
      k.chain_code (serializePoint k.public_key)
      (by simp [pubPayload]) (by simp [hv, hpf, beBytes_length]) (by rw [hcc])
  have h45 : sliceBytes 45 78 (pubPayload k v) = serializePoint k.public_key :=
    sliceBytes_of_append 45 78 _
      (v ++ [k.depth % 256] ++ k.parent_fingerprint ++
        beBytes 4 (u32OfChildNumber k.child_number) ++ k.chain_code)
      (serializePoint k.public_key) []
      (by simp [pubPayload]) (by simp [hv, hpf, hcc, beBytes_length])
      (by simp [serializePoint, beBytes_length])
  have hcnu : beNat (beBytes 4 (u32OfChildNumber k.child_number)) =
      u32OfChildNumber k.child_number :=
    beNat_beBytes 4 _ (by
      have := u32OfChildNumber_lt k.child_number hcn
      norm_num at this ⊢
      exact this)
  unfold from_ss58check_pub
  have hsd : (String.mk (base58CheckEncode (pubPayload k v))).data =
      base58CheckEncode (pubPayload k v) := rfl
  rw [hsd, base58FromCheck_encode _ (pubPayload_bytes k v hpfb hccb hvb)]
  dsimp only
  rw [pubPayload_length k v hpf hcc hv, if_neg (by simp)]
  rw [h45, parsePoint_serialize _ hpk0 hpkn]
  dsimp only
  rw [h9, hcnu, childNumberFromU32_of _ hcn, hgd, h5, h13, h0,
    Nat.mod_eq_of_lt hd]

theorem derivePriv_foldlM (H : HashPrims) (k : ExtendedPrivKey)
    (path : List DeriveJunction) :
    derivePriv H k path = List.foldlM (stepPriv H) k path := by
  induction path generalizing k with
  | nil => rfl
  | cons j t ih =>
    simp only [derivePriv, stepPriv, List.foldlM_cons]
    cases hj : junctionChildNumber j with
    | error e => rfl
    | ok cn =>
      dsimp only
      cases hc : ckd_priv H k cn with
      | error e => rfl
      | ok k' =>
        show derivePriv H k' t = List.foldlM (stepPriv H) k' t
        exact ih k'

theorem derivePub_foldlM (H : HashPrims) (k : ExtendedPubKey)
    (path : List DeriveJunction) :
    derivePub H k path = List.foldlM (stepPub H) k path := by
  induction path generalizing k with
  | nil => rfl
  | cons j t ih =>
    simp only [derivePub, stepPub, List.foldlM_cons]
    cases hj : junctionChildNumber j with
    | error e => rfl
    | ok cn =>
      dsimp only
      cases hc : ckd_pub H k cn with
      | error e => rfl
      | ok k' =>
        show derivePub H k' t = List.foldlM (stepPub H) k' t
        exact ih k'

theorem derivePriv_append (H : HashPrims) (k : ExtendedPrivKey)
    (l₁ l₂ : List DeriveJunction) :
    derivePriv H k (l₁ ++ l₂) =
      match derivePriv H k l₁ with
      | .ok k' => derivePriv H k' l₂
      | .error e => .error e := by
  induction l₁ generalizing k with
  | nil => rfl
  | cons j t ih =>
    simp only [List.cons_append, derivePriv]
    cases hj : junctionChildNumber j with
    | error e => rfl
    | ok cn =>
      dsimp only
      cases hc : ckd_priv H k cn with
      | error e => rfl
      | ok k' => exact ih k'

theorem derivePub_append (H : HashPrims) (k : ExtendedPubKey)
    (l₁ l₂ : List DeriveJunction) :
    derivePub H k (l₁ ++ l₂) =
      match derivePub H k l₁ with
      | .ok k' => derivePub H k' l₂
      | .error e => .error e := by
  induction l₁ generalizing k with
  | nil => rfl
  | cons j t ih =>
    simp only [List.cons_append, derivePub]
    cases hj : junctionChildNumber j with
    | error e => rfl
    | ok cn =>
      dsimp only
      cases hc : ckd_pub H k cn with
      | error e => rfl
      | ok k' => exact ih k'

theorem ckd_commute (H : HashPrims) (k : ExtendedPrivKey) (i : Nat) :
    Except.map deterministic_public_key (ckd_priv H k (.normal i)) =
      ckd_pub H (deterministic_public_key k) (.normal i) := by
  unfold ckd_priv ckd_pub deterministic_public_key
  dsimp only
  cases hp : parseScalar ((H.hmacSha512 k.chain_code
      (serializePoint (pointOfScalar k.private_key) ++
        beBytes 4 (u32OfChildNumber (ChildNumber.normal i)))).take 32) with
  | error e => simp [Except.map]
  | ok tweak =>
    dsimp only
    have harith : (pointOfScalar k.private_key + tweak) % secpOrder =
        (tweak + k.private_key) % secpOrder := by
      unfold pointOfScalar
      rw [Nat.mod_add_mod, Nat.add_comm]
    by_cases hz : (tweak + k.private_key) % secpOrder = 0
    · rw [if_pos hz, if_pos (by rw [harith]; exact hz)]
      simp [Except.map]
    · rw [if_neg hz, if_neg (by rw [harith]; exact hz)]
      simp only [Except.map]
      congr 1
      unfold privFingerprint pubFingerprint
      dsimp only
      congr 1
      show pointOfScalar ((tweak + k.private_key) % secpOrder) = _
      unfold pointOfScalar
      rw [Nat.mod_mod_of_dvd _ dvd_rfl, Nat.mod_add_mod,
        Nat.add_comm k.private_key tweak]

theorem derive_commute (H : HashPrims) (k : ExtendedPrivKey)
    (path : List DeriveJunction) (hsoft : ∀ j ∈ path, j.hardened = false) :
    Except.map deterministic_public_key (derivePriv H k path) =
      derivePub H (deterministic_public_key k) path := by
  induction path generalizing k with
  | nil => rfl
  | cons j t ih =>
    have hj : j.hardened = false := hsoft j (List.mem_cons_self j t)
    simp only [derivePriv, derivePub]
    cases hcn : junctionChildNumber j with
    | error e => simp [Except.map]
    | ok cn =>
      have hnormal : cn = .normal j.index := by
        unfold junctionChildNumber at hcn
        split at hcn
        · rw [hj] at hcn
          cases hcn
          rfl
        · cases hcn
      subst hnormal
      dsimp only
      have hcomm := ckd_commute H k j.index
      cases hck : ckd_priv H k (.normal j.index) with
      | error e =>
        rw [hck] at hcomm
        rw [← hcomm]
        simp [Except.map]
      | ok k' =>
        rw [hck] at hcomm
        rw [← hcomm]
        simp only [Except.map]
        exact ih k' fun x hx => hsoft x (List.mem_cons_of_mem j hx)

theorem derivePub_not_ok (H : HashPrims) (k : ExtendedPubKey)
    (path : List DeriveJunction) (hh : ∃ j ∈ path, j.hardened = true) :
    ∀ k', derivePub H k path ≠ .ok k' := by
  induction path generalizing k with
  | nil =>
    obtain ⟨j, hj, _⟩ := hh
    simp at hj
  | cons j t ih =>
    intro k' hcontra
    simp only [derivePub] at hcontra
    cases hcn : junctionChildNumber j with
    | error e =>
      rw [hcn] at hcontra
      exact Except.noConfusion hcontra
    | ok cn =>
      rw [hcn] at hcontra
      dsimp only at hcontra
      cases hck : ckd_pub H k cn with
      | error e =>
        rw [hck] at hcontra
        exact Except.noConfusion hcontra
      | ok k₂ =>
        rw [hck] at hcontra
        dsimp only at hcontra
        rcases hh with ⟨jh, hjm, hjh⟩
        rcases List.mem_cons.mp hjm with rfl | hmem
        · have hcn2 : cn = .hardened jh.index := by
            unfold junctionChildNumber at hcn
            by_cases hlt : jh.index < 2 ^ 31
            · rw [if_pos hlt, hjh] at hcn
              simp at hcn
              exact hcn.symm
            · rw [if_neg hlt] at hcn
              exact Except.noConfusion hcn
          subst hcn2
          unfold ckd_pub at hck
          exact Except.noConfusion hck
        · exact ih k₂ ⟨jh, hmem, hjh⟩ k' hcontra

theorem derivePub_hardened_head (H : HashPrims) (k : ExtendedPubKey)
    (i : Nat) (hi : i < 2 ^ 31) (suf : List DeriveJunction) :
    derivePub H k (⟨i, true⟩ :: suf) =
      .error (.key .cannotDeriveFromHardenedKey) := by
  simp only [derivePub]
  have hcn : junctionChildNumber ⟨i, true⟩ = .ok (.hardened i) := by
    unfold junctionChildNumber
    rw [if_pos hi]
    rfl
  rw [hcn]
  rfl

theorem sliceBytes_eq_of_getD (d d' : List Nat) (a b : Nat)
    (hlen : d.length = d'.length)
    (hagree : ∀ i, a ≤ i → i < b → d.getD i 0 = d'.getD i 0) :
    sliceBytes a b d = sliceBytes a b d' := by
  unfold sliceBytes
  apply List.ext_getElem?
  intro n
  rw [List.getElem?_take, List.getElem?_take, List.getElem?_drop, List.getElem?_drop]
  by_cases hn : n < b - a
  · rw [if_pos hn, if_pos hn]
    by_cases hlt : a + n < d.length
    · have hlt' : a + n < d'.length := hlen ▸ hlt
      have hg := hagree (a + n) (Nat.le_add_right a n) (by omega)
      rw [List.getD_eq_getElem?_getD, List.getD_eq_getElem?_getD,
        List.getElem?_eq_getElem hlt, List.getElem?_eq_getElem hlt'] at hg
      rw [List.getElem?_eq_getElem hlt, List.getElem?_eq_getElem hlt']
      simpa using hg
    · rw [List.getElem?_eq_none (by omega), List.getElem?_eq_none (by omega)]
  · rw [if_neg hn, if_neg hn]

theorem sliceBytes_length_78 (a b : Nat) (l : List Nat) (hl : l.length = 78)
    (hb : b ≤ 78) : (sliceBytes a b l).length = b - a := by
  unfold sliceBytes
  rw [List.length_take, List.length_drop, hl]
  omega

theorem parseScalar_ok (l : List Nat) (h32 : l.length = 32) (h0 : 0 < beNat l)
    (hn : beNat l < secpOrder) : parseScalar l = .ok (beNat l) := by
  unfold parseScalar
  rw [if_pos ⟨h32, h0, hn⟩]

theorem derivePriv_shape (H : HashPrims) (k : ExtendedPrivKey)
    (path : List DeriveJunction) :
    (∃ k', derivePriv H k path = .ok k') ∨
      (∃ e, derivePriv H k path = .error (.key e)) := by
  induction path generalizing k with
  | nil => exact .inl ⟨k, rfl⟩
  | cons j t ih =>
    simp only [derivePriv]
    cases hj : junctionChildNumber j with
    | error e => exact .inr ⟨e, rfl⟩
    | ok cn =>
      dsimp only
      cases hc : ckd_priv H k cn with
      | error e => exact .inr ⟨transform_bip32_error e, rfl⟩
      | ok k' => exact ih k'

theorem derivePub_shape (H : HashPrims) (k : ExtendedPubKey)
    (path : List DeriveJunction) :
    (∃ k', derivePub H k path = .ok k') ∨
      (∃ e, derivePub H k path = .error (.key e)) := by
  induction path generalizing k with
  | nil => exact .inl ⟨k, rfl⟩
  | cons j t ih =>
    simp only [derivePub]
    cases hj : junctionChildNumber j with
    | error e => exact .inr ⟨e, rfl⟩
    | ok cn =>
      dsimp only
      cases hc : ckd_pub H k cn with
      | error e => exact .inr ⟨transform_bip32_error e, rfl⟩
      | ok k' => exact ih k'

theorem derive_step_error_priv (H : HashPrims) (k' : ExtendedPrivKey)
    (j : DeriveJunction) (suf : List DeriveJunction) (e : TcxError)
    (hstep : stepPriv H k' j = .error e) :
    derivePriv H k' (j :: suf) = .error e := by
  simp only [derivePriv]
  unfold stepPriv at hstep
  cases hcn : junctionChildNumber j with
  | error e' =>
    rw [hcn] at hstep
    dsimp only at hstep ⊢
    exact hstep
  | ok cn =>
    rw [hcn] at hstep
    dsimp only at hstep ⊢
    cases hck : ckd_priv H k' cn with
    | error e2 =>
      rw [hck] at hstep
      dsimp only at hstep ⊢
      exact hstep
    | ok k2 =>
      rw [hck] at hstep
      exact Except.noConfusion hstep

theorem derive_step_error_pub (H : HashPrims) (k' : ExtendedPubKey)
    (j : DeriveJunction) (suf : List DeriveJunction) (e : TcxError)
    (hstep : stepPub H k' j = .error e) :
    derivePub H k' (j :: suf) = .error e := by
  simp only [derivePub]
  unfold stepPub at hstep
  cases hcn : junctionChildNumber j with
  | error e' =>
    rw [hcn] at hstep
    dsimp only at hstep ⊢
    exact hstep
  | ok cn =>
    rw [hcn] at hstep
    dsimp only at hstep ⊢
    cases hck : ckd_pub H k' cn with
    | error e2 =>
      rw [hck] at hstep
      dsimp only at hstep ⊢
      exact hstep
    | ok k2 =>
      rw [hck] at hstep
      exact Except.noConfusion hstep

/-- Concrete hash primitives for witnesses: the HMAC returns 64 bytes whose
left half has value 1 (a valid scalar) and whose right half is zero. -/
def hashW : HashPrims :=
  { hmacSha512 := fun _ _ => List.replicate 31 0 ++ [1] ++ List.replicate 32 0,
    hash160 := fun _ => List.replicate 20 0 }

/-- Concrete hash primitives whose HMAC output is all zeros, so that the left
half is an invalid (zero) scalar. -/
def hashZ : HashPrims :=
  { hmacSha512 := fun _ _ => List.replicate 64 0,
    hash160 := fun _ => List.replicate 20 0 }

/-- Concrete well-formed extended private key for witnesses. -/
def witnessPriv : ExtendedPrivKey :=
  { depth := 0, parent_fingerprint := [0, 0, 0, 0], child_number := .normal 0,
    chain_code := List.replicate 32 0, private_key := 1 }

/-- Concrete well-formed extended public key for witnesses. -/
def witnessPub : ExtendedPubKey :=
  { depth := 0, parent_fingerprint := [0, 0, 0, 0], child_number := .normal 0,
    chain_code := List.replicate 32 0, public_key := 1 }

/-- C1: for every valid extended key (private or public) and every 4-byte
version, decoding the string produced by `to_ss58check_with_version` succeeds
and returns a key equal field-for-field (depth, parent fingerprint, child
number, chain code, key material) to the original, together with exactly the
original version bytes. -/
theorem c1_ss58check_roundtrip :
    (∀ (k : ExtendedPrivKey) (v : List Nat), WFPriv k → v.length = 4 →
      (∀ b ∈ v, b < 256) → ∀ s, to_ss58check_priv k v = some s →
        from_ss58check_priv s = .ok (k, v)) ∧
    (∀ (k : ExtendedPubKey) (v : List Nat), WFPub k → v.length = 4 →
      (∀ b ∈ v, b < 256) → ∀ s, to_ss58check_pub k v = some s →
        from_ss58check_pub s = .ok (k, v)) := by
  constructor
  · intro k v hk hv hvb s hs
    rw [to_ss58check_priv_eq k v hv] at hs
    cases hs
    exact from_ss58check_priv_encode k v hk hv hvb
  · intro k v hk hv hvb s hs
    rw [to_ss58check_pub_eq k v hv] at hs
    cases hs
    exact from_ss58check_pub_encode k v hk hv hvb

/-- Witness for C1 at a concrete private and public key with the mainnet
version bytes. -/
theorem c1_ss58check_roundtrip_witness :
    from_ss58check_priv
        (String.mk (base58CheckEncode (privPayload witnessPriv [4, 136, 173, 228]))) =
      .ok (witnessPriv, [4, 136, 173, 228]) ∧
    from_ss58check_pub
        (String.mk (base58CheckEncode (pubPayload witnessPub [4, 136, 178, 30]))) =
      .ok (witnessPub, [4, 136, 178, 30]) :=
  ⟨c1_ss58check_roundtrip.1 witnessPriv [4, 136, 173, 228] (by decide) (by decide)
      (by decide) _ (to_ss58check_priv_eq witnessPriv [4, 136, 173, 228] (by decide)),
   c1_ss58check_roundtrip.2 witnessPub [4, 136, 178, 30] (by decide) (by decide)
      (by decide) _ (to_ss58check_pub_eq witnessPub [4, 136, 178, 30] (by decide))⟩

set_option maxRecDepth 100000 in
/-- C2 counterexample: the string "1Wh4bh" base58check-decodes to the 1-byte
payload [0], and the public-key decoder rejects it with
`KeyError::InvalidBase58` — not with any InvalidLength error, contrary to the
claim that both decoders fail with `InvalidLength`. -/
theorem c2_counterexample :
    base58FromCheck ("1Wh4bh" : String).data = .ok [0] ∧
    from_ss58check_pub ("1Wh4bh") = .error (.key .invalidBase58) ∧
    from_ss58check_pub ("1Wh4bh") ≠ .error (.b58 (.invalidLength 1)) ∧
    from_ss58check_pub ("1Wh4bh") ≠ .error (.key .invalidLength) := by
  refine ⟨by decide, by decide, by decide, by decide⟩

/-- C2 amended: on every input string whose base58check decoding succeeds with
a payload whose length is not 78 bytes, the private-key decoder fails with
base58's `InvalidLength(len)`, while the public-key decoder fails with
`KeyError::InvalidBase58`. -/
theorem c2_length_guard (s : String) (data : List Nat)
    (hdec : base58FromCheck s.data = .ok data) (hlen : data.length ≠ 78) :
    from_ss58check_priv s = .error (.b58 (.invalidLength data.length)) ∧
    from_ss58check_pub s = .error (.key .invalidBase58) := by
  constructor
  · unfold from_ss58check_priv
    rw [hdec]
    dsimp only
    rw [if_pos hlen]
  · unfold from_ss58check_pub
    rw [hdec]
    dsimp only
    rw [if_pos hlen]

set_option maxRecDepth 100000 in
/-- Witness for C2 (amended) at the concrete string "1Wh4bh". -/
theorem c2_length_guard_witness :
    from_ss58check_priv ("1Wh4bh") = .error (.b58 (.invalidLength 1)) ∧
    from_ss58check_pub ("1Wh4bh") = .error (.key .invalidBase58) :=
  ⟨(c2_length_guard ("1Wh4bh") [0] (by decide) (by decide)).1,
   (c2_length_guard ("1Wh4bh") [0] (by decide) (by decide)).2⟩

/-- C3 counterexample: with the all-zero HMAC instantiation, public derivation
along a path whose second junction is hardened fails at the first (soft)
junction with `InvalidEcdsa`, not with `CannotDeriveFromHardenedKey`, although
the path contains a hardened junction. -/
theorem c3_counterexample :
    derivePub hashZ witnessPub [⟨0, false⟩, ⟨0, true⟩] =
      .error (.key .invalidEcdsa) ∧
    derivePub hashZ witnessPub [⟨0, false⟩, ⟨0, true⟩] ≠
      .error (.key .cannotDeriveFromHardenedKey) := by
  refine ⟨by decide, by decide⟩

/-- C3 amended: public derivation on a path containing a hardened junction
never returns a key; and whenever every junction before a hardened junction
derives successfully (in particular when the hardened junction comes first),
the error is exactly `CannotDeriveFromHardenedKey`. A junction failing before
the hardened one reports its own error instead. -/
theorem c3_hardened_guard (H : HashPrims) (k : ExtendedPubKey)
    (path : List DeriveJunction) (hh : ∃ j ∈ path, j.hardened = true) :
    (∀ k', derivePub H k path ≠ .ok k') ∧
    (∀ pre i suf k', path = pre ++ ⟨i, true⟩ :: suf → i < 2 ^ 31 →
      derivePub H k pre = .ok k' →
      derivePub H k path = .error (.key .cannotDeriveFromHardenedKey)) := by
  constructor
  · exact derivePub_not_ok H k path hh
  · intro pre i suf k' hpath hi hpre
    subst hpath
    rw [derivePub_append, hpre]
    exact derivePub_hardened_head H k' i hi suf

/-- Witness for C3 (amended): a hardened junction in first position yields
exactly `CannotDeriveFromHardenedKey`. -/
theorem c3_hardened_guard_witness :
    derivePub hashW witnessPub [⟨0, true⟩] =
      .error (.key .cannotDeriveFromHardenedKey) :=
  (c3_hardened_guard hashW witnessPub [⟨0, true⟩]
      ⟨⟨0, true⟩, by simp, rfl⟩).2 [] 0 [] witnessPub rfl (by decide) rfl

/-- C4 counterexample: encoding with an empty caller-supplied version slice
aborts in the source (the `copy_from_slice` into `ret[0..4]` panics on a
length mismatch, modelled as `none`) — no string is returned, for either key
type, contrary to the claim that encoding returns a string for every version
byte slice. -/
theorem c4_counterexample :
    to_ss58check_priv witnessPriv [] = none ∧
    to_ss58check_pub witnessPub [] = none := by
  refine ⟨rfl, rfl⟩

/-- C4 amended: `from_seed` and both `derive`s only ever fail with a typed
`KeyError` from the taxonomy; both encoders return a string exactly when the
caller-supplied version slice has 4 bytes, and panic (modelled as `none`) on
any other version length. -/
theorem c4_typed_errors :
    (∀ (k : ExtendedPrivKey) (v : List Nat),
      (to_ss58check_priv k v).isSome = true ↔ v.length = 4) ∧
    (∀ (k : ExtendedPubKey) (v : List Nat),
      (to_ss58check_pub k v).isSome = true ↔ v.length = 4) ∧
    (∀ (H : HashPrims) (seed : List Nat),
      (∃ k, from_seed H seed = .ok k) ∨
        (∃ e, from_seed H seed = .error (.key e))) ∧
    (∀ (H : HashPrims) (k : ExtendedPrivKey) (path : List DeriveJunction),
      (∃ k', derivePriv H k path = .ok k') ∨
        (∃ e, derivePriv H k path = .error (.key e))) ∧
    (∀ (H : HashPrims) (k : ExtendedPubKey) (path : List DeriveJunction),
      (∃ k', derivePub H k path = .ok k') ∨
        (∃ e, derivePub H k path = .error (.key e))) := by
  refine ⟨?_, ?_, ?_, derivePriv_shape, derivePub_shape⟩
  · intro k v
    unfold to_ss58check_priv
    by_cases hv : v.length = 4
    · rw [if_pos hv]
      simp [hv]
    · rw [if_neg hv]
      simp [hv]
  · intro k v
    unfold to_ss58check_pub
    by_cases hv : v.length = 4
    · rw [if_pos hv]
      simp [hv]
    · rw [if_neg hv]
      simp [hv]
  · intro H seed
    unfold from_seed
    cases hm : new_master H seed with
    | error e => exact .inr ⟨transform_bip32_error e, rfl⟩
    | ok k => exact .inl ⟨k, rfl⟩

/-- Witness for C4 (amended) at concrete keys, versions, seed and path. -/
theorem c4_typed_errors_witness :
    (to_ss58check_priv witnessPriv [0, 0, 0, 0]).isSome = true ∧
    (to_ss58check_pub witnessPub [0, 0, 0]).isSome ≠ true ∧
    ((∃ k, from_seed hashZ [] = .ok k) ∨
      (∃ e, from_seed hashZ [] = .error (.key e))) :=
  ⟨(c4_typed_errors.1 witnessPriv [0, 0, 0, 0]).mpr (by decide),
   fun hc => by
     have := (c4_typed_errors.2.1 witnessPub [0, 0, 0]).mp hc
     exact absurd this (by decide),
   c4_typed_errors.2.2.1 hashZ []⟩

/-- C5 counterexample: with the all-zero HMAC instantiation the master-key
left half is the invalid scalar zero, and `from_seed` fails with
`InvalidEcdsa` (the image of the backend's `Ecdsa` error under
`transform_bip32_error`) — not with `CanNotDerivePairFromSeed`. -/
theorem c5_counterexample :
    ¬ (0 < beNat ((hashZ.hmacSha512 bitcoinSeedKey []).take 32) ∧
        beNat ((hashZ.hmacSha512 bitcoinSeedKey []).take 32) < secpOrder) ∧
    from_seed hashZ [] = .error (.key .invalidEcdsa) ∧
    from_seed hashZ [] ≠ .error (.key .canNotDerivePairFromSeed) := by
  refine ⟨by decide, by decide, by decide⟩

/-- C5 amended: whenever the left half of the master HMAC is not a valid
scalar (zero or not less than the curve order), `from_seed` fails — with the
`InvalidEcdsa` error of the taxonomy, not with `CanNotDerivePairFromSeed`. -/
theorem c5_invalid_seed (H : HashPrims) (seed : List Nat)
    (hbad : ¬ (0 < beNat ((H.hmacSha512 bitcoinSeedKey seed).take 32) ∧
        beNat ((H.hmacSha512 bitcoinSeedKey seed).take 32) < secpOrder)) :
    from_seed H seed = .error (.key .invalidEcdsa) := by
  unfold from_seed new_master
  have hps : parseScalar ((H.hmacSha512 bitcoinSeedKey seed).take 32) =
      .error ("secp256k1: malformed secret key") := by
    unfold parseScalar
    rw [if_neg fun hc => hbad ⟨hc.2.1, hc.2.2⟩]
  dsimp only
  rw [hps]
  rfl

/-- Witness for C5 (amended) at the all-zero HMAC instantiation and the empty
seed. -/
theorem c5_invalid_seed_witness :
    from_seed hashZ [] = .error (.key .invalidEcdsa) :=
  c5_invalid_seed hashZ [] (by decide)

/-- C6 counterexample: the error-mapping layer sends the backend's
`InvalidChildNumberFormat` to the taxonomy's `InvalidChildNumber`, a
different variant than the taxonomy's own `InvalidChildNumberFormat` —
contrary to the claim. -/
theorem c6_counterexample :
    transform_bip32_error .invalidChildNumberFormat = .invalidChildNumber ∧
    transform_bip32_error .invalidChildNumberFormat ≠ .invalidChildNumberFormat := by
  refine ⟨rfl, by decide⟩

/-- C6 amended: `transform_bip32_error` translates the backend's
`InvalidChildNumberFormat` failure into the taxonomy's `InvalidChildNumber`
variant, merging it with the image of the backend's `InvalidChildNumber(_)`;
it does not map it to the taxonomy's `InvalidChildNumberFormat`. -/
theorem c6_error_mapping :
    transform_bip32_error .invalidChildNumberFormat = .invalidChildNumber ∧
    ∀ n, transform_bip32_error (.invalidChildNumber n) = .invalidChildNumber :=
  ⟨rfl, fun _ => rfl⟩

/-- C7: each encoder base58-encodes exactly its 78-byte payload followed by
the 4-byte checksum (first 4 bytes of the double SHA-256 of the payload); the
payload carries the version at [0:4), the depth at [4], the parent fingerprint
at [5:9), the child number as a big-endian u32 at [9:13), the chain code at
[13:45), and at [45:78) the key material — one zero pad byte and the 32-byte
scalar for a private key, the 33-byte compressed point for a public key. -/
theorem c7_payload_layout :
    (∀ (k : ExtendedPrivKey) (v : List Nat), WFPriv k → v.length = 4 →
      to_ss58check_priv k v =
        some (String.mk (base58Encode
          (privPayload k v ++ (sha256d (privPayload k v)).take 4))) ∧
      (privPayload k v).length = 78 ∧
      sliceBytes 0 4 (privPayload k v) = v ∧
      (privPayload k v).getD 4 0 = k.depth ∧
      sliceBytes 5 9 (privPayload k v) = k.parent_fingerprint ∧
      sliceBytes 9 13 (privPayload k v) =
        beBytes 4 (u32OfChildNumber k.child_number) ∧
      sliceBytes 13 45 (privPayload k v) = k.chain_code ∧
      sliceBytes 45 78 (privPayload k v) = 0 :: beBytes 32 k.private_key) ∧
    (∀ (k : ExtendedPubKey) (v : List Nat), WFPub k → v.length = 4 →
      to_ss58check_pub k v =
        some (String.mk (base58Encode
          (pubPayload k v ++ (sha256d (pubPayload k v)).take 4))) ∧
      (pubPayload k v).length = 78 ∧
      sliceBytes 0 4 (pubPayload k v) = v ∧
      (pubPayload k v).getD 4 0 = k.depth ∧
      sliceBytes 5 9 (pubPayload k v) = k.parent_fingerprint ∧
      sliceBytes 9 13 (pubPayload k v) =
        beBytes 4 (u32OfChildNumber k.child_number) ∧
      sliceBytes 13 45 (pubPayload k v) = k.chain_code ∧
      sliceBytes 45 78 (pubPayload k v) = serializePoint k.public_key) := by
  constructor
  · intro k v hk hv
    obtain ⟨hd, hpf, _, _, hcc, _, _, _⟩ := hk
    refine ⟨to_ss58check_priv_eq k v hv, privPayload_length k v hpf hcc hv,
      sliceBytes_of_append 0 4 _ [] v
        ([k.depth % 256] ++ k.parent_fingerprint ++
          beBytes 4 (u32OfChildNumber k.child_number) ++ k.chain_code ++
          [0] ++ beBytes 32 k.private_key)
        (by simp [privPayload]) rfl (by rw [hv]),
      ?_,
      sliceBytes_of_append 5 9 _ (v ++ [k.depth % 256]) k.parent_fingerprint
        (beBytes 4 (u32OfChildNumber k.child_number) ++ k.chain_code ++
          [0] ++ beBytes 32 k.private_key)
        (by simp [privPayload]) (by simp [hv]) (by rw [hpf]),
      sliceBytes_of_append 9 13 _ (v ++ [k.depth % 256] ++ k.parent_fingerprint)
        (beBytes 4 (u32OfChildNumber k.child_number))
        (k.chain_code ++ [0] ++ beBytes 32 k.private_key)
        (by simp [privPayload]) (by simp [hv, hpf]) (by simp [beBytes_length]),
      sliceBytes_of_append 13 45 _
        (v ++ [k.depth % 256] ++ k.parent_fingerprint ++
          beBytes 4 (u32OfChildNumber k.child_number)) k.chain_code
        ([0] ++ beBytes 32 k.private_key)
        (by simp [privPayload]) (by simp [hv, hpf, beBytes_length]) (by rw [hcc]),
      sliceBytes_of_append 45 78 _
        (v ++ [k.depth % 256] ++ k.parent_fingerprint ++
          beBytes 4 (u32OfChildNumber k.child_number) ++ k.chain_code)
        (0 :: beBytes 32 k.private_key) []
        (by simp [privPayload]) (by simp [hv, hpf, hcc, beBytes_length])
        (by simp [beBytes_length])⟩
    rw [getD_of_append _ v
      (k.parent_fingerprint ++ beBytes 4 (u32OfChildNumber k.child_number) ++
        k.chain_code ++ [0] ++ beBytes 32 k.private_key)
      (k.depth % 256) 4 (by simp [privPayload]) hv]
    exact Nat.mod_eq_of_lt hd
  · intro k v hk hv
    obtain ⟨hd, hpf, _, _, hcc, _, _, _⟩ := hk
    refine ⟨to_ss58check_pub_eq k v hv, pubPayload_length k v hpf hcc hv,
      sliceBytes_of_append 0 4 _ [] v
        ([k.depth % 256] ++ k.parent_fingerprint ++
          beBytes 4 (u32OfChildNumber k.child_number) ++ k.chain_code ++
          serializePoint k.public_key)
        (by simp [pubPayload]) rfl (by rw [hv]),
      ?_,
      sliceBytes_of_append 5 9 _ (v ++ [k.depth % 256]) k.parent_fingerprint
        (beBytes 4 (u32OfChildNumber k.child_number) ++ k.chain_code ++
          serializePoint k.public_key)
        (by simp [pubPayload]) (by simp [hv]) (by rw [hpf]),
      sliceBytes_of_append 9 13 _ (v ++ [k.depth % 256] ++ k.parent_fingerprint)
        (beBytes 4 (u32OfChildNumber k.child_number))
        (k.chain_code ++ serializePoint k.public_key)
        (by simp [pubPayload]) (by simp [hv, hpf]) (by simp [beBytes_length]),
      sliceBytes_of_append 13 45 _
        (v ++ [k.depth % 256] ++ k.parent_fingerprint ++
          beBytes 4 (u32OfChildNumber k.child_number)) k.chain_code
        (serializePoint k.public_key)
        (by simp [pubPayload]) (by simp [hv, hpf, beBytes_length]) (by rw [hcc]),
      sliceBytes_of_append 45 78 _
        (v ++ [k.depth % 256] ++ k.parent_fingerprint ++
          beBytes 4 (u32OfChildNumber k.child_number) ++ k.chain_code)
        (serializePoint k.public_key) []
        (by simp [pubPayload]) (by simp [hv, hpf, hcc, beBytes_length])
        (by simp [serializePoint, beBytes_length])⟩
    rw [getD_of_append _ v
      (k.parent_fingerprint ++ beBytes 4 (u32OfChildNumber k.child_number) ++
        k.chain_code ++ serializePoint k.public_key)
      (k.depth % 256) 4 (by simp [pubPayload]) hv]
    exact Nat.mod_eq_of_lt hd

/-- Witness for C7 at concrete keys and the mainnet version bytes. -/
theorem c7_payload_layout_witness :
    sliceBytes 45 78 (privPayload witnessPriv [4, 136, 173, 228]) =
      0 :: beBytes 32 witnessPriv.private_key ∧
    sliceBytes 45 78 (pubPayload witnessPub [4, 136, 178, 30]) =
      serializePoint witnessPub.public_key :=
  ⟨(c7_payload_layout.1 witnessPriv [4, 136, 173, 228] (by decide)
      (by decide)).2.2.2.2.2.2.2,
   (c7_payload_layout.2 witnessPub [4, 136, 178, 30] (by decide)
      (by decide)).2.2.2.2.2.2.2⟩

/-- C8: path derivation is a strict left-fold of single-junction child
derivation, for private and public keys: it equals `List.foldlM` of the step
function, and if the step at some junction fails, the whole derivation
returns exactly that error with no partial result, ignoring later junctions. -/
theorem c8_strict_left_fold :
    (∀ (H : HashPrims) (k : ExtendedPrivKey) (path : List DeriveJunction),
      derivePriv H k path = List.foldlM (stepPriv H) k path) ∧
    (∀ (H : HashPrims) (k : ExtendedPubKey) (path : List DeriveJunction),
      derivePub H k path = List.foldlM (stepPub H) k path) ∧
    (∀ (H : HashPrims) (k k' : ExtendedPrivKey) (pre suf : List DeriveJunction)
      (j : DeriveJunction) (e : TcxError), derivePriv H k pre = .ok k' →
      stepPriv H k' j = .error e →
      derivePriv H k (pre ++ j :: suf) = .error e) ∧
    (∀ (H : HashPrims) (k k' : ExtendedPubKey) (pre suf : List DeriveJunction)
      (j : DeriveJunction) (e : TcxError), derivePub H k pre = .ok k' →
      stepPub H k' j = .error e →
      derivePub H k (pre ++ j :: suf) = .error e) := by
  refine ⟨derivePriv_foldlM, derivePub_foldlM, ?_, ?_⟩
  · intro H k k' pre suf j e hpre hstep
    rw [derivePriv_append, hpre]
    exact derive_step_error_priv H k' j suf e hstep
  · intro H k k' pre suf j e hpre hstep
    rw [derivePub_append, hpre]
    exact derive_step_error_pub H k' j suf e hstep

/-- Witness for C8 at a concrete failing junction (index `2 ^ 31` is rejected
by the junction conversion). -/
theorem c8_strict_left_fold_witness :
    derivePriv hashW witnessPriv ([] ++ ⟨2 ^ 31, false⟩ :: []) =
      .error (.key .invalidChildNumber) ∧
    derivePub hashW witnessPub ([] ++ ⟨2 ^ 31, false⟩ :: []) =
      .error (.key .invalidChildNumber) :=
  ⟨c8_strict_left_fold.2.2.1 hashW witnessPriv witnessPriv [] [] ⟨2 ^ 31, false⟩
      (.key .invalidChildNumber) rfl (by decide),
   c8_strict_left_fold.2.2.2 hashW witnessPub witnessPub [] [] ⟨2 ^ 31, false⟩
      (.key .invalidChildNumber) rfl (by decide)⟩

/-- Master key produced by `from_seed` under the `hashW` instantiation, used
by the C9 witness. -/
def witnessMaster : ExtendedPrivKey :=
  { depth := 0, parent_fingerprint := List.replicate 4 0,
    child_number := .normal 0, chain_code := List.replicate 32 0,
    private_key := 1 }

/-- C9: for every seed whose master-key creation succeeds and every junction
sequence containing no hardened junction, taking the deterministic public key
of the private key derived along the path equals deriving the master's
deterministic public key along the same path. -/
theorem c9_public_derivation_commutes (H : HashPrims) (seed : List Nat)
    (m : ExtendedPrivKey) (_hm : from_seed H seed = .ok m)
    (path : List DeriveJunction) (hsoft : ∀ j ∈ path, j.hardened = false) :
    Except.map deterministic_public_key (derivePriv H m path) =
      derivePub H (deterministic_public_key m) path :=
  derive_commute H m path hsoft

/-- Witness for C9 at the `hashW` instantiation, the empty seed and a
one-junction soft path. -/
theorem c9_public_derivation_commutes_witness :
    Except.map deterministic_public_key
        (derivePriv hashW witnessMaster [⟨0, false⟩]) =
      derivePub hashW (deterministic_public_key witnessMaster) [⟨0, false⟩] :=
  c9_public_derivation_commutes hashW [] witnessMaster (by decide)
    [⟨0, false⟩] (by decide)

/-- C10: the private-key decoder never inspects the pad byte at payload offset
45: two 78-byte payloads (with their checksums recomputed by the encoder)
that differ only at byte 45 decode identically, and whenever bytes [46:78)
hold a valid scalar the decode succeeds regardless of the value of byte 45. -/
theorem c10_pad_byte_ignored (d d' : List Nat)
    (hl : d.length = 78) (hl' : d'.length = 78)
    (hb : ∀ b ∈ d, b < 256) (hb' : ∀ b ∈ d', b < 256)
    (hagree : ∀ i, i < 78 → i ≠ 45 → d.getD i 0 = d'.getD i 0) :
    from_ss58check_priv (String.mk (base58CheckEncode d)) =
      from_ss58check_priv (String.mk (base58CheckEncode d')) ∧
    (0 < beNat (sliceBytes 46 78 d) → beNat (sliceBytes 46 78 d) < secpOrder →
      ∃ k, from_ss58check_priv (String.mk (base58CheckEncode d)) =
        .ok (k, sliceBytes 0 4 d)) := by
  have hlen : d.length = d'.length := by rw [hl, hl']
  have e0 : sliceBytes 0 4 d = sliceBytes 0 4 d' :=
    sliceBytes_eq_of_getD d d' 0 4 hlen
      fun i h1 h2 => hagree i (by omega) (by omega)
  have e5 : sliceBytes 5 9 d = sliceBytes 5 9 d' :=
    sliceBytes_eq_of_getD d d' 5 9 hlen
      fun i h1 h2 => hagree i (by omega) (by omega)
  have e9 : sliceBytes 9 13 d = sliceBytes 9 13 d' :=
    sliceBytes_eq_of_getD d d' 9 13 hlen
      fun i h1 h2 => hagree i (by omega) (by omega)
  have e13 : sliceBytes 13 45 d = sliceBytes 13 45 d' :=
    sliceBytes_eq_of_getD d d' 13 45 hlen
      fun i h1 h2 => hagree i (by omega) (by omega)
  have e46 : sliceBytes 46 78 d = sliceBytes 46 78 d' :=
    sliceBytes_eq_of_getD d d' 46 78 hlen
      fun i h1 h2 => hagree i (by omega) (by omega)
  have egd : d.getD 4 0 = d'.getD 4 0 := hagree 4 (by omega) (by omega)
  constructor
  · unfold from_ss58check_priv
    rw [show (String.mk (base58CheckEncode d)).data = base58CheckEncode d from rfl,
      show (String.mk (base58CheckEncode d')).data = base58CheckEncode d' from rfl,
      base58FromCheck_encode d hb, base58FromCheck_encode d' hb']
    dsimp only
    rw [hl, hl', e0, e5, e9, e13, e46, egd]
  · intro h0 hn
    unfold from_ss58check_priv
    rw [show (String.mk (base58CheckEncode d)).data = base58CheckEncode d from rfl,
      base58FromCheck_encode d hb]
    dsimp only
    rw [hl, if_neg (by simp)]
    rw [parseScalar_ok _ (sliceBytes_length_78 46 78 d hl (by omega)) h0 hn]
    exact ⟨_, rfl⟩

/-- Witness for C10 at two concrete 78-byte payloads differing only in the
pad byte at offset 45. -/
theorem c10_pad_byte_ignored_witness :
    from_ss58check_priv (String.mk (base58CheckEncode
        (List.replicate 45 0 ++ [0] ++ (List.replicate 31 0 ++ [1])))) =
      from_ss58check_priv (String.mk (base58CheckEncode
        (List.replicate 45 0 ++ [7] ++ (List.replicate 31 0 ++ [1])))) ∧
    ∃ k, from_ss58check_priv (String.mk (base58CheckEncode
        (List.replicate 45 0 ++ [0] ++ (List.replicate 31 0 ++ [1])))) =
      .ok (k, sliceBytes 0 4
        (List.replicate 45 0 ++ [0] ++ (List.replicate 31 0 ++ [1]))) :=
  ⟨(c10_pad_byte_ignored
      (List.replicate 45 0 ++ [0] ++ (List.replicate 31 0 ++ [1]))
      (List.replicate 45 0 ++ [7] ++ (List.replicate 31 0 ++ [1]))
      (by decide) (by decide) (by decide) (by decide) (by decide)).1,
   (c10_pad_byte_ignored
      (List.replicate 45 0 ++ [0] ++ (List.replicate 31 0 ++ [1]))
      (List.replicate 45 0 ++ [7] ++ (List.replicate 31 0 ++ [1]))
      (by decide) (by decide) (by decide) (by decide) (by decide)).2
      (by decide) (by decide)⟩
